import Mathlib

/-!
Verification development for the AATM release-metadata engine
(`src/api/static/js/parsers.js`, `src/api/static/js/models/Serie.js`,
and the release-name generator / `Media` / `Film` modules).

JavaScript strings are modelled as `List Char`.  String-valued JS
operations (`toUpperCase`, `toLowerCase`, `trim`, `split`, `join`,
`includes`, `replace` with the concrete patterns used by the code)
are given explicit executable models.  Unicode NFD normalization
followed by diacritic stripping is modelled by a character table
covering the Latin-1 letters the application manipulates (French
diacritics); ASCII case mapping matches JavaScript on ASCII, which is
the alphabet of every token the engine produces.
-/

namespace AATM

/-- Convert a Lean string literal to the `List Char` model of a JS string. -/
def jsStr (s : String) : List Char := s.toList

/-- Model of the JS `\s` class restricted to ASCII whitespace. -/
def isWs (c : Char) : Bool :=
  c = ' ' ∨ c = '\t' ∨ c = '\n' ∨ c = '\r' ∨ c = '\x0b' ∨ c = '\x0c'

/-- Model of the JS `\w` class: `[A-Za-z0-9_]`. -/
def isWordC (c : Char) : Bool :=
  ('a' ≤ c ∧ c ≤ 'z') ∨ ('A' ≤ c ∧ c ≤ 'Z') ∨ ('0' ≤ c ∧ c ≤ '9') ∨ c = '_'

/-- ASCII decimal digit (JS `\d`). -/
def isDigitC (c : Char) : Bool := '0' ≤ c ∧ c ≤ '9'

/-- Model of JS `String.prototype.toUpperCase` (ASCII fragment). -/
def toUpperL (l : List Char) : List Char := l.map Char.toUpper

/-- Model of JS `String.prototype.toLowerCase` (ASCII fragment). -/
def toLowerL (l : List Char) : List Char := l.map Char.toLower

/-- Model of JS `String.prototype.trim` (ASCII whitespace). -/
def trimWs (l : List Char) : List Char :=
  ((l.dropWhile isWs).reverse.dropWhile isWs).reverse

/-- Model of JS `a.includes(pat)`: substring containment. -/
def containsSub (l pat : List Char) : Bool :=
  match l with
  | [] => pat.isPrefixOf ([] : List Char)
  | _ :: t => pat.isPrefixOf l || containsSub t pat

/-- Model of JS `Array.prototype.join(sep)` on string arrays. -/
def joinSep (sep : List Char) : List (List Char) → List Char
  | [] => []
  | [w] => w
  | w :: ws => w ++ sep ++ joinSep sep ws

/-- Model of `str.replace(pat, rep)` for a literal pattern: replaces the
first occurrence of `pat` (assumed non-empty in all uses) by `rep`. -/
def replaceSub (l pat rep : List Char) : List Char :=
  match l with
  | [] => []
  | c :: t => if pat.isPrefixOf l then rep ++ l.drop pat.length else c :: replaceSub t pat rep

/-- Diacritic table modelling `normalize('NFD')` followed by removal of
combining marks (both the `[̀-ͯ]` range used by
`normalizeTitle` and the `\p{Diacritic}` class used by the tag
normalizer) for the Latin-1 letters handled by the application.
Characters outside the table are unchanged. -/
def stripTable : List (Char × Char) :=
  [('à','a'),('â','a'),('ä','a'),('á','a'),('ã','a'),('å','a'),
   ('ç','c'),('è','e'),('é','e'),('ê','e'),('ë','e'),
   ('ì','i'),('í','i'),('î','i'),('ï','i'),
   ('ò','o'),('ó','o'),('ô','o'),('ö','o'),('õ','o'),
   ('ù','u'),('ú','u'),('û','u'),('ü','u'),('ñ','n'),('ý','y'),('ÿ','y'),
   ('À','A'),('Â','A'),('Ä','A'),('Á','A'),('Ã','A'),('Å','A'),
   ('Ç','C'),('È','E'),('É','E'),('Ê','E'),('Ë','E'),
   ('Ì','I'),('Í','I'),('Î','I'),('Ï','I'),
   ('Ò','O'),('Ó','O'),('Ô','O'),('Ö','O'),('Õ','O'),
   ('Ù','U'),('Ú','U'),('Û','U'),('Ü','U'),('Ñ','N'),('Ý','Y')]

/-- Strip the diacritic of a single character via `stripTable`. -/
def stripD (c : Char) : Char :=
  match stripTable.find? (fun p => p.1 = c) with
  | some p => p.2
  | none => c

/-- Model of `replace(/[çÇ]/g, m => m === 'ç' ? 'c' : 'C')` (a no-op after
NFD stripping, kept to mirror the source). -/
def cedC (c : Char) : Char :=
  if c = 'ç' then 'c' else if c = 'Ç' then 'C' else c

/-- Model of `replace(/['\x27`]/g, '.')`: apostrophes and backticks
become a dot. -/
def apoC (c : Char) : Char :=
  if c = '\'' ∨ c = '`' then '.' else c

/-- Character survives `replace(/[,;}{[\]:]/g, '')`. -/
def fbKeep (c : Char) : Bool :=
  ¬ (c = ',' ∨ c = ';' ∨ c = '\x7d' ∨ c = '\x7b' ∨ c = '[' ∨ c = ']' ∨ c = ':')

/-- Dash-to-dot replacement (the global dash regex of `normalizeTitle`). -/
def dashC (c : Char) : Char := if c = '-' then '.' else c

/-- Steps 1-5 of `normalizeTitle` (part_003 lines 14-22 / part_004
lines 576-580): NFD strip, cedilla fold, apostrophe to dot, forbidden
character removal, dash to dot. -/
def step15 (l : List Char) : List Char :=
  ((((l.map stripD).map cedC).map apoC).filter fbKeep).map dashC

/-- Model of JS `str.split(/\s+/)`: split on maximal whitespace runs,
with an empty token for a leading or trailing run and `[""]` for the
empty string. -/
def splitWs : List Char → List (List Char)
  | [] => [[]]
  | c :: rest =>
    if isWs c then
      match rest with
      | [] => [[], []]
      | c2 :: _ => if isWs c2 then splitWs rest else [] :: splitWs rest
    else
      match splitWs rest with
      | [] => [[c]]
      | w :: ws => (c :: w) :: ws

/-- Per-word capitalization of `normalizeTitle`: keep a fully-uppercase
word of length at most 4, otherwise upper-case the first character and
lower-case the rest. -/
def capWord (w : List Char) : List Char :=
  match w with
  | [] => []
  | c :: rest =>
    if w = toUpperL w ∧ w.length ≤ 4 then w
    else Char.toUpper c :: toLowerL rest

/-- Model of `replace(/\.{2,}/g, '.')`: collapse runs of dots. -/
def collapseDots : List Char → List Char
  | [] => []
  | [c] => [c]
  | a :: b :: rest =>
    if a = '.' ∧ b = '.' then collapseDots (b :: rest)
    else a :: collapseDots (b :: rest)

/-- Model of `replace(/^\.|\.$/g, '')`: drop one leading and one
trailing dot. -/
def trimDots (l : List Char) : List Char :=
  let l1 := if l.head? = some '.' then l.tail else l
  if l1.getLast? = some '.' then l1.dropLast else l1

/-- Embedding of `normalizeTitle` (part_003 lines 11-32; the identical
static `Media.normalizeTitle` is at part_004 lines 574-588). -/
def normalizeTitle (title : List Char) : List Char :=
  if title = [] then []
  else trimDots (collapseDots (joinSep ['.'] ((splitWs (step15 title)).map capWord)))

example : normalizeTitle (jsStr "Example Movie") = jsStr "Example.Movie" := by decide
example : normalizeTitle (jsStr "Ab Cd") = jsStr "Ab.Cd" := by decide
example : normalizeTitle (jsStr "Ab.Cd") = jsStr "Ab.cd" := by decide
example : normalizeTitle (jsStr "L'été à Paris") = jsStr "L.ete.A.Paris" := by decide
example : normalizeTitle (jsStr "NCIS enquêtes spéciales") = jsStr "NCIS.Enquetes.Speciales" := by decide

/-- Release attribute bag: the merged record produced by the filename
parser and the technical-metadata normalizer and consumed by the name
composers (fields of `Media` in part_004 plus the plain-object fields
used by the part_003 generators).  Absent string fields are `[]`
(the JS falsy empty string / undefined). -/
structure Info where
  title : List Char := []
  threeD : Bool := false
  threeDType : List Char := []
  year : List Char := []
  infoFlag : List Char := []
  edition : List Char := []
  imax : Bool := false
  isVOSTFR : Bool := false
  audioLanguages : List (List Char) := []
  language : List Char := []
  languageInfo : List Char := []
  releaseGroup : List Char := []
  tags : List (List Char) := []
  hdr : List (List Char) := []
  resolution : List Char := []
  platform : List Char := []
  source : List Char := []
  audioCodecs : List (List Char) := []
  audio : List Char := []
  audioChannels : List Char := []
  audioSpec : List Char := []
  codec : List Char := []
  season : List Char := []
  episode : List Char := []
  container : List Char := []
deriving DecidableEq

/-- English test of `generateLanguageParts`: some audio language is
exactly `anglais`, `english` or `en` after lower-casing. -/
def langsHasEnglish (ls : List (List Char)) : Bool :=
  ls.any (fun l => toLowerL l = jsStr "anglais" ∨ toLowerL l = jsStr "english" ∨ toLowerL l = jsStr "en")

/-- VFF test: some audio language lower-cases to exactly `vff`. -/
def langsHasVFF (ls : List (List Char)) : Bool :=
  ls.any (fun l => toLowerL l = jsStr "vff")

/-- VFQ test: some audio language lower-cases to exactly `vfq`. -/
def langsHasVFQ (ls : List (List Char)) : Bool :=
  ls.any (fun l => toLowerL l = jsStr "vfq")

/-- Generic-French test: some audio language contains `français` or
`french` after lower-casing. -/
def langsHasFrench (ls : List (List Char)) : Bool :=
  ls.any (fun l => containsSub (toLowerL l) (jsStr "français") ∨ containsSub (toLowerL l) (jsStr "french"))

/-- Languages outside the recognized French/English vocabulary
(the `otherLanguages` filter of `generateLanguageParts`). -/
def otherLangs (ls : List (List Char)) : List (List Char) :=
  ls.filter (fun l =>
    ! ([jsStr "vff", jsStr "vfq", jsStr "français", jsStr "french",
        jsStr "anglais", jsStr "english", jsStr "en"].contains (toLowerL l)))

/-- Embedding of `detectFrenchVariant` (part_003 lines 40-61).  The
ASCII case model does not upper-case `é`, so the accented spellings of
Québec in the source pattern list are matched only when already
capitalized; no theorem below depends on those branches. -/
def detectFrenchVariant (releaseGroup : List Char) (tags : List (List Char)) : List Char :=
  let searchText := toUpperL (releaseGroup ++ jsStr " " ++ joinSep (jsStr " ") tags)
  if containsSub searchText (jsStr "VFQ") ∨ containsSub searchText (jsStr "QUÉBEC") ∨
     containsSub searchText (jsStr "QUEBEC") ∨ containsSub searchText (jsStr "CANADIAN") ∨
     containsSub searchText (jsStr "CANADA") ∨ containsSub searchText (jsStr "QUEBECOIS") ∨
     containsSub searchText (jsStr "QUÉBÉCOIS") then jsStr "VFQ"
  else if containsSub searchText (jsStr "VFF") ∨ containsSub searchText (jsStr "FRENCH") ∨
          containsSub searchText (jsStr "FRANCE") ∨ containsSub searchText (jsStr "EUROPEAN") then jsStr "VFF"
  else jsStr "VFF"

/-- Embedding of `generateLanguageParts` (part_003 lines 68-117). -/
def generateLanguageParts (i : Info) : List (List Char) :=
  if i.isVOSTFR then [jsStr "VOSTFR"]
  else if i.audioLanguages ≠ [] then
    let hasEnglish := langsHasEnglish i.audioLanguages
    let hasVFF := langsHasVFF i.audioLanguages
    let hasVFQ := langsHasVFQ i.audioLanguages
    let hasFrench := langsHasFrench i.audioLanguages
    let others := otherLangs i.audioLanguages
    if hasEnglish ∧ ¬hasVFF ∧ ¬hasVFQ ∧ ¬hasFrench ∧ others.length = 0 then [jsStr "VOSTFR"]
    else if hasEnglish ∧ (hasVFQ ∨ hasVFF) ∧ others.length = 0 then [jsStr "MULTI"]
    else if hasVFF ∧ hasVFQ ∧ ¬hasEnglish ∧ ¬hasFrench ∧ others.length = 0 then [jsStr "MULTI"]
    else if hasVFF ∧ ¬hasVFQ ∧ ¬hasEnglish ∧ ¬hasFrench ∧ others.length = 0 then [jsStr "VFF"]
    else if hasVFQ ∧ ¬hasVFF ∧ ¬hasEnglish ∧ ¬hasFrench ∧ others.length = 0 then [jsStr "VFQ"]
    else if hasFrench ∧ ¬hasVFF ∧ ¬hasVFQ ∧ others.length > 0 then [jsStr "MULTI"]
    else if hasFrench ∧ ¬hasVFF ∧ ¬hasVFQ ∧ others.length = 0 then
      [toUpperL (detectFrenchVariant i.releaseGroup i.tags)]
    else if others.length > 1 then [jsStr "MULTI"]
    else if others.length = 1 then [toUpperL others.head!]
    else []
  else if i.language ≠ [] then
    let lang := toUpperL i.language
    [if lang = jsStr "MULTI" then jsStr "MULTi" else lang]
  else []

/-- Embedding of `Media.prototype.getLanguageParts` (part_004 lines
594-641): same shape as `generateLanguageParts` but the
generic-French-alone branch pushes a hard-coded `VFF`. -/
def mediaGetLanguageParts (i : Info) : List (List Char) :=
  if i.isVOSTFR then [jsStr "VOSTFR"]
  else if i.audioLanguages ≠ [] then
    let hasEnglish := i.audioLanguages.any (fun l =>
      [jsStr "anglais", jsStr "english", jsStr "en"].contains (toLowerL l))
    let hasVFF := langsHasVFF i.audioLanguages
    let hasVFQ := langsHasVFQ i.audioLanguages
    let hasFrench := langsHasFrench i.audioLanguages
    let others := otherLangs i.audioLanguages
    if hasEnglish ∧ ¬hasVFF ∧ ¬hasVFQ ∧ ¬hasFrench ∧ others.length = 0 then [jsStr "VOSTFR"]
    else if hasEnglish ∧ (hasVFQ ∨ hasVFF) ∧ others.length = 0 then [jsStr "MULTI"]
    else if hasVFF ∧ hasVFQ ∧ ¬hasEnglish ∧ ¬hasFrench ∧ others.length = 0 then [jsStr "MULTI"]
    else if hasVFF ∧ ¬hasVFQ ∧ ¬hasEnglish ∧ ¬hasFrench ∧ others.length = 0 then [jsStr "VFF"]
    else if hasVFQ ∧ ¬hasVFF ∧ ¬hasEnglish ∧ ¬hasFrench ∧ others.length = 0 then [jsStr "VFQ"]
    else if hasFrench ∧ ¬hasVFF ∧ ¬hasVFQ ∧ others.length > 0 then [jsStr "MULTI"]
    else if hasFrench ∧ ¬hasVFF ∧ ¬hasVFQ ∧ others.length = 0 then [jsStr "VFF"]
    else if others.length > 1 then [jsStr "MULTI"]
    else if others.length = 1 then [toUpperL others.head!]
    else []
  else if i.language ≠ [] then
    [if toUpperL i.language = jsStr "MULTI" then jsStr "MULTi" else toUpperL i.language]
  else []

/-- Embedding of `generateLanguageInfoParts` (part_003 lines 124-146). -/
def generateLanguageInfoParts (i : Info) : List (List Char) :=
  (if i.audioLanguages ≠ [] then
    let hasVFF := langsHasVFF i.audioLanguages
    let hasVFQ := langsHasVFQ i.audioLanguages
    let others := i.audioLanguages.filter (fun l =>
      toLowerL l ≠ jsStr "vff" ∧ toLowerL l ≠ jsStr "vfq" ∧
      ¬ containsSub (toLowerL l) (jsStr "français") ∧ ¬ containsSub (toLowerL l) (jsStr "french"))
    if (hasVFF ∨ hasVFQ) ∧ others.length > 0 then
      [if hasVFQ then jsStr "VFQ" else jsStr "TrueFrench"]
    else []
  else [])
  ++ (if i.languageInfo ≠ [] then [toUpperL i.languageInfo] else [])

/-- JS `Set.add` model: append if not already present. -/
def addUniq (l : List (List Char)) (x : List Char) : List (List Char) :=
  if l.contains x then l else l ++ [x]

/-- First-occurrence deduplication (`[...new Set(xs)]`). -/
def dedupL (l : List (List Char)) : List (List Char) :=
  l.foldl addUniq []

/-- Test for the `WEB.RIP` regex branch: `WEB`, any character other
than a newline, then `RIP`. -/
def hasWebXRip : List Char → Bool
  | a :: b :: c :: d :: e :: f :: g :: rest =>
      (a = 'W' ∧ b = 'E' ∧ c = 'B' ∧ d ≠ '\n' ∧ e = 'R' ∧ f = 'I' ∧ g = 'P') ||
      hasWebXRip (b :: c :: d :: e :: f :: g :: rest)
  | _ => false

/-- Source keywords detected from the aggregate upper-cased text, in
the insertion order of the `sourcePatterns` object (part_003 lines
158-174). -/
def matchedSources (t : List Char) : List (List Char) :=
  (if containsSub t (jsStr "REMUX") then [jsStr "REMUX"] else [])
  ++ (if containsSub t (jsStr "WEB-DL") ∨ containsSub t (jsStr "WEBDL") then [jsStr "WEB-DL"] else [])
  ++ (if t = jsStr "WEB" then [jsStr "WEB"] else [])
  ++ (if containsSub t (jsStr "WEBRIP") ∨ hasWebXRip t then [jsStr "WEBRip"] else [])
  ++ (if containsSub t (jsStr "HDTV") then [jsStr "HDTV"] else [])
  ++ (if containsSub t (jsStr "HDLIGHT") then [jsStr "HDLight"] else [])
  ++ (if containsSub t (jsStr "4KLIGHT") then [jsStr "4KLight"] else [])
  ++ (if containsSub t (jsStr "BLURAY") ∨ containsSub t (jsStr "BLU-RAY") ∨
        containsSub t (jsStr "BDRIP") ∨ containsSub t (jsStr "BRRIP") then [jsStr "BluRay"] else [])
  ++ (if containsSub t (jsStr "DVDRIP") ∨ containsSub t (jsStr "DVD-RIP") then [jsStr "DVDRip"] else [])

/-- Normalization of the primary `source` field (part_003 lines
176-187; the same table is `Media.prototype.getSourcePart`,
part_004 lines 647-660). -/
def normSource (s : List Char) : List Char :=
  let low := toLowerL s
  if low = jsStr "web-dl" ∨ low = jsStr "webdl" then jsStr "WEB-DL"
  else if low = jsStr "webrip" then jsStr "WEBRip"
  else if low = jsStr "bluray" ∨ low = jsStr "blu-ray" ∨ low = jsStr "bdrip" ∨ low = jsStr "brrip" then jsStr "BluRay"
  else if low = jsStr "remux" then jsStr "REMUX"
  else if low = jsStr "hdlight" then jsStr "HDLight"
  else if low = jsStr "4klight" then jsStr "4KLight"
  else if low = jsStr "dvdrip" then jsStr "DVDRip"
  else if low = jsStr "hdtv" then jsStr "HDTV"
  else s

/-- Embedding of `generateSourcePart` (part_003 lines 153-191). -/
def generateSourcePart (i : Info) : List Char :=
  let allText := toUpperL (i.source ++ jsStr " " ++ i.releaseGroup ++ jsStr " " ++ joinSep (jsStr " ") i.tags)
  let det := matchedSources allText
  let det2 := if i.source ≠ [] then addUniq det (normSource i.source) else det
  joinSep ['.'] det2

/-- Embedding of `Media.prototype.getSourcePart` (part_004 lines
647-660): single-token normalization of the primary source field. -/
def mediaGetSourcePart (i : Info) : List Char :=
  if i.source = [] then [] else normSource i.source

/-- Removal of the first `\s+` run followed by `pat`
(model of `replace(/\s+ATMOS/, '')` and `replace(/\s+DTS:X/, '')`). -/
def replaceWsPat (l : List Char) (pat : List Char) : List Char :=
  match l with
  | [] => []
  | c :: rest =>
    if isWs c then
      let after := rest.dropWhile isWs
      if pat.isPrefixOf after then after.drop pat.length
      else c :: replaceWsPat rest pat
    else c :: replaceWsPat rest pat

/-- Audio-codec token mapping of `generateAudioParts` (part_003 lines
202-209). -/
def mapAudioCodec3 (c : List Char) : List Char :=
  let codec := toUpperL c
  let codec2 :=
    if codec = jsStr "TRUEHD ATMOS" ∨ containsSub codec (jsStr "TRUEHD") then jsStr "TrueHD"
    else if codec = jsStr "E-AC3 ATMOS" ∨ codec = jsStr "EAC3 ATMOS" ∨ containsSub codec (jsStr "E-AC3") then jsStr "EAC3"
    else if codec = jsStr "DTS:X" then jsStr "DTS:X"
    else if containsSub codec (jsStr "DTS") then jsStr "DTS"
    else codec
  replaceWsPat (replaceWsPat codec2 (jsStr "ATMOS")) (jsStr "DTS:X")

/-- Audio-codec token mapping of `Media.prototype.getAudioParts`
(part_004 lines 670-677). -/
def mapAudioCodecMedia (c : List Char) : List Char :=
  let codec := toUpperL c
  if containsSub codec (jsStr "TRUEHD") then jsStr "TrueHD"
  else if containsSub codec (jsStr "E-AC3") ∨ containsSub codec (jsStr "EAC3") then jsStr "EAC3"
  else if codec = jsStr "DTS:X" then jsStr "DTS:X"
  else if containsSub codec (jsStr "DTS") then jsStr "DTS"
  else replaceWsPat (replaceWsPat codec (jsStr "ATMOS")) (jsStr "DTS:X")

/-- Atmos / DTS:X audio-spec set accumulated over the codec list
(part_003 lines 225-233 and part_004 lines 688-696). -/
def audioSpecsOf (cs : List (List Char)) : List (List Char) :=
  cs.foldl (fun acc c =>
    let lower := toLowerL c
    let acc1 := if containsSub lower (jsStr "atmos") then addUniq acc (jsStr "Atmos") else acc
    if containsSub lower (jsStr "dts:x") ∨ containsSub lower (jsStr "dtsx") then addUniq acc1 (jsStr "DTS:X") else acc1) []

/-- Fallback normalization of a single `audio` field (part_003 lines
212-216). -/
def normAudioFallback (a : List Char) : List Char :=
  let u := toUpperL a
  let u1 := if u = jsStr "DDP" ∨ u = jsStr "E-AC-3" then jsStr "EAC3" else u
  if u1 = jsStr "DD" ∨ u1 = jsStr "AC-3" then jsStr "AC3" else u1

/-- Embedding of `generateAudioParts` (part_003 lines 198-241). -/
def generateAudioParts (i : Info) : List (List Char) :=
  (if i.audioCodecs ≠ [] then [joinSep ['.'] (dedupL (i.audioCodecs.map mapAudioCodec3))]
   else if i.audio ≠ [] then [normAudioFallback i.audio] else [])
  ++ (if i.audioChannels ≠ [] then [i.audioChannels] else [])
  ++ (if i.audioCodecs ≠ [] then
        (let specs := audioSpecsOf i.audioCodecs
         if specs ≠ [] then [joinSep ['.'] specs] else [])
      else [])
  ++ (if i.audioSpec ≠ [] then [i.audioSpec] else [])

/-- Embedding of `Media.prototype.getAudioParts` (part_004 lines
666-700): no single-`audio` fallback and no `audioSpec` field. -/
def mediaGetAudioParts (i : Info) : List (List Char) :=
  (if i.audioCodecs ≠ [] then [joinSep ['.'] (dedupL (i.audioCodecs.map mapAudioCodecMedia))] else [])
  ++ (if i.audioChannels ≠ [] then [i.audioChannels] else [])
  ++ (if i.audioCodecs ≠ [] then
        (let specs := audioSpecsOf i.audioCodecs
         if specs ≠ [] then [joinSep ['.'] specs] else [])
      else [])

/-- Fixed HDR priority list (part_003 line 278 / part_004 line 720). -/
def hdrOrderL : List (List Char) :=
  [jsStr "HDR10+", jsStr "HDR10", jsStr "HDR", jsStr "DV", jsStr "HLG", jsStr "SDR"]

/-- JS `hdrOrder.indexOf(h)`: position in the priority list, `-1` when
absent. -/
def hdrIdx (h : List Char) : Int :=
  match hdrOrderL.indexOf? h with
  | some n => (n : Int)
  | none => -1

/-- Comparator preorder derived from
`(a, b) => hdrOrder.indexOf(a) - hdrOrder.indexOf(b)`. -/
def hdrLe (a b : List Char) : Prop := hdrIdx a ≤ hdrIdx b

instance : DecidableRel hdrLe :=
  fun a b => inferInstanceAs (Decidable (hdrIdx a ≤ hdrIdx b))

instance : IsTotal (List Char) hdrLe := ⟨fun a b => Int.le_total (hdrIdx a) (hdrIdx b)⟩

instance : IsTrans (List Char) hdrLe := ⟨fun _ _ _ h1 h2 => le_trans h1 h2⟩

/-- Canonicalization of one HDR label (`h.toUpperCase().replace('DOLBY VISION', 'DV')`). -/
def mapHdr (h : List Char) : List Char :=
  replaceSub (toUpperL h) (jsStr "DOLBY VISION") (jsStr "DV")

/-- Embedding of `Media.prototype.getHdrParts` (part_004 lines
718-724); the same map-and-sort appears inline in the part_003
generators (lines 277-283 and 369-375).  JS `Array.prototype.sort`
is specified to be a stable sort, and a stable sort with respect to a
total preorder is unique, so it is modelled by the stable
`List.insertionSort`. -/
def hdrParts (hdr : List (List Char)) : List (List Char) :=
  (hdr.map mapHdr).insertionSort hdrLe

/-- Resolution slot (`res.endsWith('p') ? res : res + 'p'`). -/
def resPart (r : List Char) : List Char :=
  let res := toLowerL r
  if res.getLast? = some 'p' then res else res ++ ['p']

/-- Video-codec slot (part_003 lines 302-307; identical logic is
`Media.prototype.getCodecPart`, part_004 lines 706-712). -/
def movieCodecPart (c : List Char) : List Char :=
  let u := toUpperL c
  let u1 := if u = jsStr "H264" ∨ u = jsStr "H.264" ∨ u = jsStr "AVC" then jsStr "x264" else u
  if u1 = jsStr "H265" ∨ u1 = jsStr "H.265" ∨ u1 = jsStr "HEVC" then jsStr "x265" else u1

/-- Ordered slot list of `generateMovieReleaseName` (part_003 lines
248-313) before the team suffix. -/
def movieParts (i : Info) : List (List Char) :=
  (if i.title ≠ [] then [normalizeTitle i.title] else [])
  ++ (if i.threeD then [jsStr "3D"] else [])
  ++ (if i.threeDType ≠ [] then [i.threeDType] else [])
  ++ (if i.year ≠ [] then [i.year] else [])
  ++ (if i.infoFlag ≠ [] then [toUpperL i.infoFlag] else [])
  ++ (if i.edition ≠ [] then [i.edition] else [])
  ++ (if i.imax then [jsStr "iMAX"] else [])
  ++ generateLanguageParts i
  ++ generateLanguageInfoParts i
  ++ (if i.hdr ≠ [] then hdrParts i.hdr else [])
  ++ (if i.resolution ≠ [] then [resPart i.resolution] else [])
  ++ (if i.platform ≠ [] then [toUpperL i.platform] else [])
  ++ (let sp := generateSourcePart i; if sp ≠ [] then [sp] else [])
  ++ generateAudioParts i
  ++ (if i.codec ≠ [] then [movieCodecPart i.codec] else [])

/-- Release-group suffix (`info.releaseGroup || 'NoTag'`). -/
def teamOf (i : Info) : List Char :=
  if i.releaseGroup = [] then jsStr "NoTag" else i.releaseGroup

/-- Embedding of `generateMovieReleaseName` (part_003 lines 248-313). -/
def generateMovieReleaseName (i : Info) : List Char :=
  joinSep ['.'] (movieParts i) ++ '-' :: teamOf i

/-- Season/episode slot of `generateSeriesReleaseName` (part_003 lines
335-351); `isSeason` models `mediaType === 'season'`. -/
def seriesSeasonEpisodePart (i : Info) (isSeason : Bool) : List (List Char) :=
  if isSeason then
    if i.season ≠ [] then
      (if toUpperL i.season = jsStr "COMPLETE" ∨ toUpperL i.season = jsStr "INTEGRALE"
       then [jsStr "COMPLETE"] else [toUpperL i.season])
    else []
  else
    if i.season ≠ [] ∧ i.episode ≠ [] then [toUpperL i.season ++ toUpperL i.episode]
    else if i.episode ≠ [] then [toUpperL i.episode]
    else if i.season ≠ [] then [toUpperL i.season]
    else []

/-- Ordered slot list of `generateSeriesReleaseName` (part_003 lines
321-405) before the team suffix. -/
def seriesParts (i : Info) (isSeason : Bool) : List (List Char) :=
  (if i.title ≠ [] then [normalizeTitle i.title] else [])
  ++ (if i.threeD then [jsStr "3D"] else [])
  ++ (if i.threeDType ≠ [] then [i.threeDType] else [])
  ++ (if i.year ≠ [] then [i.year] else [])
  ++ seriesSeasonEpisodePart i isSeason
  ++ (if i.infoFlag ≠ [] then [toUpperL i.infoFlag] else [])
  ++ (if i.edition ≠ [] then [i.edition] else [])
  ++ (if i.imax then [jsStr "iMAX"] else [])
  ++ generateLanguageParts i
  ++ generateLanguageInfoParts i
  ++ (if i.hdr ≠ [] then hdrParts i.hdr else [])
  ++ (if i.resolution ≠ [] then [resPart i.resolution] else [])
  ++ (if i.platform ≠ [] then [toUpperL i.platform] else [])
  ++ (let sp := generateSourcePart i; if sp ≠ [] then [sp] else [])
  ++ generateAudioParts i
  ++ (if i.codec ≠ [] then [movieCodecPart i.codec] else [])

/-- Embedding of `generateSeriesReleaseName` (part_003 lines 321-405). -/
def generateSeriesReleaseName (i : Info) (isSeason : Bool) : List Char :=
  joinSep ['.'] (seriesParts i isSeason) ++ '-' :: teamOf i

/-- Ordered slot list of `Film.prototype.generateName` (part_004 lines
41-91) before the team suffix: uses the `Media` helper methods and has
no language-info, audio-fallback or audio-spec-field slots. -/
def filmParts (i : Info) : List (List Char) :=
  (if i.title ≠ [] then [normalizeTitle i.title] else [])
  ++ (if i.threeD then [jsStr "3D"] else [])
  ++ (if i.threeDType ≠ [] then [i.threeDType] else [])
  ++ (if i.year ≠ [] then [i.year] else [])
  ++ (if i.infoFlag ≠ [] then [toUpperL i.infoFlag] else [])
  ++ (if i.edition ≠ [] then [i.edition] else [])
  ++ (if i.imax then [jsStr "iMAX"] else [])
  ++ mediaGetLanguageParts i
  ++ hdrParts i.hdr
  ++ (if i.resolution ≠ [] then [resPart i.resolution] else [])
  ++ (if i.platform ≠ [] then [toUpperL i.platform] else [])
  ++ (let sp := mediaGetSourcePart i; if sp ≠ [] then [sp] else [])
  ++ mediaGetAudioParts i
  ++ (let cp := if i.codec = [] then [] else movieCodecPart i.codec; if cp ≠ [] then [cp] else [])

/-- Embedding of `Film.prototype.generateName` (part_004 lines 41-91). -/
def filmGenerateName (i : Info) : List Char :=
  joinSep ['.'] (filmParts i) ++ '-' :: teamOf i

example :
    generateLanguageParts { audioLanguages := [jsStr "Français", jsStr "Anglais"] } = [jsStr "VFF"] := by
  decide

example :
    mediaGetLanguageParts { audioLanguages := [jsStr "Français", jsStr "Anglais"] } = [jsStr "VFF"] := by
  decide

example :
    generateMovieReleaseName
      { title := jsStr "Example Movie", year := jsStr "2019", source := jsStr "BluRay",
        releaseGroup := jsStr "GROUP", resolution := jsStr "1080p", codec := jsStr "x264" }
    = jsStr "Example.Movie.2019.1080p.BluRay.X264-GROUP" := by
  decide

example : hdrParts [jsStr "DV", jsStr "HDR10"] = [jsStr "HDR10", jsStr "DV"] := by decide
example : hdrParts [jsStr "HDR10", jsStr "HDR10"] = [jsStr "HDR10", jsStr "HDR10"] := by decide
example : hdrParts [jsStr "ZZZ", jsStr "HDR10"] = [jsStr "ZZZ", jsStr "HDR10"] := by decide

/-- Language map of `config.js` (lines 60-88). -/
def languageMapJs : List (List Char × List Char) :=
  [(jsStr "french", jsStr "Français"), (jsStr "français", jsStr "Français"), (jsStr "fr", jsStr "Français"),
   (jsStr "english", jsStr "Anglais"), (jsStr "en", jsStr "Anglais"),
   (jsStr "spanish", jsStr "Espagnol"), (jsStr "español", jsStr "Espagnol"), (jsStr "es", jsStr "Espagnol"),
   (jsStr "german", jsStr "Allemand"), (jsStr "deutsch", jsStr "Allemand"), (jsStr "de", jsStr "Allemand"),
   (jsStr "italian", jsStr "Italien"), (jsStr "italiano", jsStr "Italien"), (jsStr "it", jsStr "Italien"),
   (jsStr "portuguese", jsStr "Portugais"), (jsStr "português", jsStr "Portugais"), (jsStr "pt", jsStr "Portugais"),
   (jsStr "japanese", jsStr "Japonais"), (jsStr "ja", jsStr "Japonais"),
   (jsStr "korean", jsStr "Coréen"), (jsStr "ko", jsStr "Coréen"),
   (jsStr "chinese", jsStr "Chinois"), (jsStr "zh", jsStr "Chinois"),
   (jsStr "russian", jsStr "Russe"), (jsStr "ru", jsStr "Russe"),
   (jsStr "arabic", jsStr "Arabe"), (jsStr "ar", jsStr "Arabe")]

/-- Association-list lookup modelling a JS object property access. -/
def lookupAssoc (table : List (List Char × α)) (key : List Char) : Option α :=
  (table.find? (fun p => p.1 = key)).map (fun p => p.2)

/-- Scan for the `VO[\s-]*STF?R?` alternative of the VOSTFR language
test, on upper-cased text. -/
def scanVO : List Char → Bool
  | [] => false
  | c :: rest =>
    (match c, rest with
     | 'V', c2 :: r2 =>
       c2 = 'O' ∧ (jsStr "ST").isPrefixOf (r2.dropWhile (fun x => isWs x ∨ x = '-'))
     | _, _ => False) || scanVO rest

/-- Scan for the first `VF[FQ]` occurrence (case-insensitive); returns
whether the third letter is a `Q`. -/
def findVF : List Char → Option Bool
  | a :: b :: c :: rest =>
    if a.toUpper = 'V' ∧ b.toUpper = 'F' ∧ (c.toUpper = 'F' ∨ c.toUpper = 'Q')
    then some (c.toUpper = 'Q') else findVF (b :: c :: rest)
  | _ => none

/-- Embedding of `normalizeLang` (part_003 lines 500-522 of the
utilities module, with `LANGUAGE_MAP` from `config.js`). -/
def normalizeLang (lang : List Char) : List Char :=
  if lang = [] then jsStr "Unknown"
  else
    let l := trimWs lang
    if containsSub (toUpperL l) (jsStr "VOSTFR") ∨ scanVO (toUpperL l) then jsStr "VOSTFR"
    else
      match findVF l with
      | some isQ => if isQ then jsStr "VFQ" else jsStr "VFF"
      | none =>
        let base := l.takeWhile (fun c => isWordC c ∨ c = '-')
        if base ≠ [] then
          match lookupAssoc languageMapJs (toLowerL base) with
          | some v => v
          | none => l
        else if l = [] then jsStr "Unknown" else l

example : normalizeLang (jsStr "Français") = jsStr "Français" := by decide
example : normalizeLang (jsStr "English") = jsStr "Anglais" := by decide

/-- French-family test of the overall-language classification in
`parseMediaInfo` (parsers.js lines 156-158). -/
def miIsFrenchy (l : List Char) : Bool :=
  containsSub (toLowerL l) (jsStr "français") ∨ containsSub (toLowerL l) (jsStr "vff") ∨
  containsSub (toLowerL l) (jsStr "vfq")

/-- Normalized audio-language list produced by `parseMediaInfo` from
the per-track `Language` fields (parsers.js lines 96-99 and 152). -/
def parseAudioLanguages (trackLangs : List (List Char)) : List (List Char) :=
  trackLangs.map normalizeLang

/-- Overall advisory `language` field set by `parseMediaInfo`
(parsers.js lines 156-161): `MULTi` when French-family and
non-French-family tracks coexist, `FRENCH` when only French-family
tracks are present, unset otherwise. -/
def parseMediaInfoLanguage (trackLangs : List (List Char)) : List Char :=
  if trackLangs = [] then []
  else
    let langs := parseAudioLanguages trackLangs
    let hasFrench := langs.any miIsFrenchy
    let hasNonFrench := langs.any (fun l => ¬ miIsFrenchy l)
    if hasFrench ∧ hasNonFrench then jsStr "MULTi"
    else if hasFrench then jsStr "FRENCH"
    else []

example : parseMediaInfoLanguage [jsStr "Français", jsStr "English"] = jsStr "MULTi" := by decide

/-- Embedding of the resolution derivation of `parseMediaInfo`
(parsers.js lines 38-45): thresholds on width OR height, `none` when
both dimensions are non-positive. -/
def parseResolution (width height : Int) : Option (List Char) :=
  if width ≥ 3840 ∨ height ≥ 2100 then some (jsStr "2160p")
  else if width ≥ 1920 ∨ height ≥ 1000 then some (jsStr "1080p")
  else if width ≥ 1280 ∨ height ≥ 700 then some (jsStr "720p")
  else if width > 0 ∨ height > 0 then some (jsStr "480p")
  else none

/-- Word-boundary test against the previous character (`none` at the
start of the string). -/
def boundaryB : Option Char → Bool
  | none => true
  | some p => ¬ isWordC p

/-- Character class of the release-group suffix `[a-zA-Z0-9\[\]]`. -/
def isGroupC (c : Char) : Bool :=
  ('a' ≤ c ∧ c ≤ 'z') ∨ ('A' ≤ c ∧ c ≤ 'Z') ∨ ('0' ≤ c ∧ c ≤ '9') ∨ c = '[' ∨ c = ']'

/-- Suffix after the last dash, when a dash exists. -/
def lastDashSuffix (l : List Char) : Option (List Char) :=
  let rev := l.reverse
  let suf := rev.takeWhile (fun c => c ≠ '-')
  if suf.length = rev.length then none else some suf.reverse

/-- Release-group extraction (parsers.js lines 214-221): suffix after
the final dash, all characters in the group class, rejected when it is
a resolution token. -/
def groupOf (l : List Char) : List Char :=
  match lastDashSuffix l with
  | none => []
  | some suf =>
    if suf ≠ [] ∧ suf.all isGroupC then
      if [jsStr "2160p", jsStr "1080p", jsStr "720p", jsStr "576p", jsStr "480p", jsStr "4320p"].contains (toLowerL suf)
      then [] else suf
    else []

/-- Strip a trailing video extension (parsers.js line 211). -/
def stripVideoExt (l : List Char) : List Char :=
  let low := toLowerL l
  if (jsStr ".mkv").isSuffixOf low ∨ (jsStr ".mp4").isSuffixOf low ∨
     (jsStr ".avi").isSuffixOf low ∨ (jsStr ".iso").isSuffixOf low
  then l.take (l.length - 4) else l

/-- Ebook extension of the name, when present (parsers.js lines
230, 236-240); `azw3` is tried before `azw` as the regex is greedy. -/
def ebookExtOf (l : List Char) : Option (List Char) :=
  let low := toLowerL l
  if (jsStr ".epub").isSuffixOf low then some (jsStr "epub")
  else if (jsStr ".pdf").isSuffixOf low then some (jsStr "pdf")
  else if (jsStr ".mobi").isSuffixOf low then some (jsStr "mobi")
  else if (jsStr ".azw3").isSuffixOf low then some (jsStr "azw3")
  else if (jsStr ".azw").isSuffixOf low then some (jsStr "azw")
  else if (jsStr ".cbr").isSuffixOf low then some (jsStr "cbr")
  else if (jsStr ".cbz").isSuffixOf low then some (jsStr "cbz")
  else none

/-- Digits prefix and remainder. -/
def takeDigits (l : List Char) : List Char × List Char :=
  (l.takeWhile isDigitC, l.dropWhile isDigitC)

/-- Pad a digit string to two characters (`padStart(2, '0')`). -/
def padStart2 (l : List Char) : List Char :=
  if l.length ≥ 2 then l else List.replicate (2 - l.length) '0' ++ l

/-- Word boundary after a match: the next character, if any, is not a
word character. -/
def noWordNext : List Char → Bool
  | [] => true
  | c :: _ => ¬ isWordC c

/-- Year match at the current position (`\b(19|20)\d{2}\b`). -/
def yearAt (prev : Option Char) (l : List Char) : Option (List Char) :=
  match l with
  | a :: b :: c :: d :: rest =>
    if boundaryB prev ∧ ((a = '1' ∧ b = '9') ∨ (a = '2' ∧ b = '0')) ∧ isDigitC c ∧ isDigitC d ∧
       noWordNext rest
    then some [a, b, c, d] else none
  | _ => none

/-- First year match with its index. -/
def findYearAux (prev : Option Char) (l : List Char) (pos : Nat) : Option (Nat × List Char) :=
  match l with
  | [] => none
  | c :: rest =>
    match yearAt prev l with
    | some y => some (pos, y)
    | none => findYearAux (some c) rest (pos + 1)

/-- Season-and-episode match at the current position
(`\bS(\d{1,2})E(\d{1,3})\b`, case-insensitive); returns the two digit
captures. -/
def sxeAt (prev : Option Char) (l : List Char) : Option (List Char × List Char) :=
  match l with
  | s :: r =>
    if boundaryB prev ∧ (s = 'S' ∨ s = 's') then
      let (ds, r1) := takeDigits r
      if 1 ≤ ds.length ∧ ds.length ≤ 2 then
        match r1 with
        | e :: r2 =>
          if e = 'E' ∨ e = 'e' then
            let (es, r3) := takeDigits r2
            if 1 ≤ es.length ∧ es.length ≤ 3 ∧ noWordNext r3
            then some (ds, es) else none
          else none
        | [] => none
      else none
    else none
  | [] => none

/-- First season-and-episode match with its index. -/
def findSxEAux (prev : Option Char) (l : List Char) (pos : Nat) :
    Option (Nat × List Char × List Char) :=
  match l with
  | [] => none
  | c :: rest =>
    match sxeAt prev l with
    | some p => some (pos, p)
    | none => findSxEAux (some c) rest (pos + 1)

/-- Digits-with-boundary step shared by the season and episode
patterns: an optional whitespace, one or two (`maxLen`) digits, then a
word boundary. -/
def digitsAfterOptWs (l : List Char) (maxLen : Nat) : Option (List Char) :=
  let r := match l with
    | c :: rest => if isWs c then rest else l
    | [] => l
  let (ds, r1) := takeDigits r
  if 1 ≤ ds.length ∧ ds.length ≤ maxLen ∧ noWordNext r1
  then some ds else none

/-- Second alternative of the season pattern:
`\b(Complete|Integrale)\b` at the current position (boundary before
already checked); returns the matched text in its original casing. -/
def seasonSentinelAt (l : List Char) : Option (List Char ⊕ List Char) :=
  if (jsStr "complete").isPrefixOf (toLowerL (l.take 8)) ∧ l.length ≥ 8 ∧ noWordNext (l.drop 8)
  then some (Sum.inr (l.take 8))
  else if (jsStr "integrale").isPrefixOf (toLowerL (l.take 9)) ∧ l.length ≥ 9 ∧ noWordNext (l.drop 9)
  then some (Sum.inr (l.take 9))
  else none

/-- Season match at the current position: first alternative
`(?:S|Season)\s?(\d{1,2})\b` (the literal `S` is tried before
`Season`), second alternative `(Complete|Integrale)\b`; returns the
digit capture or the matched sentinel text. -/
def seasonAt (prev : Option Char) (l : List Char) : Option (List Char ⊕ List Char) :=
  if boundaryB prev then
    match l with
    | c :: rest =>
      if c = 'S' ∨ c = 's' then
        match digitsAfterOptWs rest 2 with
        | some ds => some (Sum.inl ds)
        | none =>
          if (jsStr "season").isPrefixOf (toLowerL (l.take 6)) ∧ l.length ≥ 6 then
            match digitsAfterOptWs (l.drop 6) 2 with
            | some ds => some (Sum.inl ds)
            | none => seasonSentinelAt l
          else seasonSentinelAt l
      else seasonSentinelAt l
    | [] => none
  else none

/-- First season match with its index. -/
def findSeasonAux (prev : Option Char) (l : List Char) (pos : Nat) :
    Option (Nat × (List Char ⊕ List Char)) :=
  match l with
  | [] => none
  | c :: rest =>
    match seasonAt prev l with
    | some m => some (pos, m)
    | none => findSeasonAux (some c) rest (pos + 1)

/-- Episode match at the current position
(`\b(?:E|Episode)\s?(\d{1,3})\b`, `E` tried before `Episode`). -/
def episodeAt (prev : Option Char) (l : List Char) : Option (List Char) :=
  if boundaryB prev then
    match l with
    | c :: rest =>
      if c = 'E' ∨ c = 'e' then
        match digitsAfterOptWs rest 3 with
        | some ds => some ds
        | none =>
          if (jsStr "episode").isPrefixOf (toLowerL (l.take 7)) ∧ l.length ≥ 7 then
            digitsAfterOptWs (l.drop 7) 3
          else none
      else none
    | [] => none
  else none

/-- First episode match with its index. -/
def findEpisodeAux (prev : Option Char) (l : List Char) (pos : Nat) :
    Option (Nat × List Char) :=
  match l with
  | [] => none
  | c :: rest =>
    match episodeAt prev l with
    | some m => some (pos, m)
    | none => findEpisodeAux (some c) rest (pos + 1)

/-- Source keyword alternatives, in the order of the source pattern
(lower-cased; the case-insensitive duplicates of the original list are
redundant). -/
def sourceAlts : List (List Char) :=
  [jsStr "bluray", jsStr "bdrip", jsStr "brrip", jsStr "webrip",
   jsStr "web-dl", jsStr "webdl", jsStr "web", jsStr "hdtv", jsStr "dvdrip"]

/-- Source match at the current position: the first alternative that is
a case-insensitive prefix followed by a word boundary; returns the
matched text in its original casing. -/
def sourceAt (prev : Option Char) (l : List Char) : Option (List Char) :=
  if boundaryB prev then
    (sourceAlts.find? (fun p =>
      p.isPrefixOf (toLowerL (l.take p.length)) && decide (l.length ≥ p.length) &&
      noWordNext (l.drop p.length))).map
      (fun p => l.take p.length)
  else none

/-- First source match with its index. -/
def findSourceAux (prev : Option Char) (l : List Char) (pos : Nat) :
    Option (Nat × List Char) :=
  match l with
  | [] => none
  | c :: rest =>
    match sourceAt prev l with
    | some m => some (pos, m)
    | none => findSourceAux (some c) rest (pos + 1)

/-- Does `VOSTFR` occur here followed by a delimiter or the end
(`VOSTFR(?:[\.\s\-]|$)`, case-insensitive)? -/
def vostfrAfter (l : List Char) : Bool :=
  (jsStr "VOSTFR").isPrefixOf (toUpperL (l.take 6)) && decide (l.length ≥ 6) &&
  (match l.drop 6 with
   | [] => true
   | c :: _ => c = '.' ∨ isWs c ∨ c = '-')

/-- Scan for a delimited VOSTFR token after some delimiter character. -/
def hasVostfrAux : List Char → Bool
  | [] => false
  | c :: rest => ((c = '.' ∨ isWs c ∨ c = '-') ∧ vostfrAfter rest) || hasVostfrAux rest

/-- Embedding of the VOSTFR filename test
(`/(?:^|[\.\s\-])VOSTFR(?:[\.\s\-]|$)/i`). -/
def hasVostfr (name : List Char) : Bool :=
  vostfrAfter name || hasVostfrAux name

/-- Title cleanup of `parseReleaseName` (parsers.js lines 276-280):
dots and underscores to spaces, trailing `[-()]` run removed, then
trimmed. -/
def titleCleanup (l : List Char) : List Char :=
  let t := l.map (fun c => if c = '.' then ' ' else if c = '_' then ' ' else c)
  trimWs ((t.reverse.dropWhile (fun c => c = '-' ∨ c = '(' ∨ c = ')')).reverse)

/-- Embedding of `parseReleaseName` (parsers.js lines 206-296), without
the optional MediaInfo merge (`nfoContent` absent). -/
def parseReleaseName (name : List Char) : Info :=
  let cleanName0 := trimWs name
  let cleanName1 := stripVideoExt cleanName0
  let group := groupOf cleanName1
  let ebook := ebookExtOf cleanName1
  let container := match ebook with | some e => toUpperL e | none => []
  let cleanName := match ebook with
    | some e => cleanName1.take (cleanName1.length - (e.length + 1))
    | none => cleanName1
  let yearR := findYearAux none cleanName 0
  let sxeR := findSxEAux none cleanName 0
  let seasonR := match sxeR with | some _ => none | none => findSeasonAux none cleanName 0
  let episodeR := match sxeR with | some _ => none | none => findEpisodeAux none cleanName 0
  let sourceR := findSourceAux none cleanName 0
  let idx0 := cleanName.length
  let idx1 := match yearR with | some (i, _) => if i < idx0 then i else idx0 | none => idx0
  let idx2 := match sxeR with | some (i, _) => if i < idx1 then i else idx1 | none => idx1
  let idx3 := match seasonR with | some (i, _) => if i < idx2 then i else idx2 | none => idx2
  let idx4 := match episodeR with | some (i, _) => if i < idx3 then i else idx3 | none => idx3
  let idx5 := match sourceR with | some (i, _) => if i < idx4 then i else idx4 | none => idx4
  let title := titleCleanup (cleanName.take idx5)
  { title := title,
    year := match yearR with | some (_, y) => y | none => [],
    season := match sxeR with
      | some (_, ds, _) => 'S' :: padStart2 ds
      | none => match seasonR with
        | some (_, Sum.inl ds) => 'S' :: padStart2 ds
        | some (_, Sum.inr txt) => toUpperL txt
        | none => [],
    episode := match sxeR with
      | some (_, _, es) => 'E' :: padStart2 es
      | none => match episodeR with
        | some (_, es) => 'E' :: padStart2 es
        | none => [],
    source := match sourceR with | some (_, s) => s | none => [],
    releaseGroup := group,
    container := container,
    isVOSTFR := hasVostfr name }

example :
    parseReleaseName (jsStr "Example.Movie.2019.1080p.BluRay.x264-GROUP") =
      { title := jsStr "Example Movie", year := jsStr "2019", source := jsStr "BluRay",
        releaseGroup := jsStr "GROUP" } := by
  decide

/-- One selectable tag of the external taxonomy. -/
structure Tag where
  id : Nat
  name : List Char
deriving DecidableEq

/-- One category of the external taxonomy. -/
structure TagCategory where
  name : List Char
  tags : List Tag
deriving DecidableEq

/-- The taxonomy snapshot (`window.LaCaleTagCache`). -/
structure TagCache where
  categories : List TagCategory
deriving DecidableEq

/-- Tag-matcher normalization
(`s.normalize('NFD').replace(/\p{Diacritic}/gu, '').toLowerCase().trim()`). -/
def normS (l : List Char) : List Char :=
  trimWs (toLowerL (l.map stripD))

/-- Alias table of `findTagIdByName` in `Serie.js` (lines 580-603). -/
def aliasesSerie : List (List Char × List (List Char)) :=
  [(jsStr "x264", [jsStr "avc/h264/x264", jsStr "avc", jsStr "h264"]),
   (jsStr "x265", [jsStr "hevc/h265/x265", jsStr "hevc", jsStr "h265"]),
   (jsStr "ac3", [jsStr "ac3", jsStr "dolby digital"]),
   (jsStr "francais", [jsStr "french", jsStr "français", jsStr "fr"]),
   (jsStr "french", [jsStr "francais", jsStr "français", jsStr "fr"]),
   (jsStr "anglais", [jsStr "english", jsStr "en"]),
   (jsStr "english", [jsStr "anglais", jsStr "en"]),
   (jsStr "web-dl", [jsStr "web-dl", jsStr "webdl"]),
   (jsStr "vff", [jsStr "vff"]),
   (jsStr "vfq", [jsStr "vfq"]),
   (jsStr "multi", [jsStr "multi"]),
   (jsStr "1080p", [jsStr "1080p (full hd)", jsStr "1080p"]),
   (jsStr "2160p", [jsStr "2160p (4k)", jsStr "2160p", jsStr "4k"]),
   (jsStr "720p", [jsStr "720p (hd)", jsStr "720p"]),
   (jsStr "sd", [jsStr "sd"]),
   (jsStr "remux", [jsStr "remux"]),
   (jsStr "bluray", [jsStr "bluray", jsStr "blu-ray"]),
   (jsStr "mkv", [jsStr "mkv"]),
   (jsStr "mp4", [jsStr "mp4"]),
   (jsStr "avi", [jsStr "avi"]),
   (jsStr "iso", [jsStr "iso"]),
   (jsStr "autres", [jsStr "autres", jsStr "autres extensions", jsStr "autres sous-titres", jsStr "autres audio"])]

/-- Category-name synonym table of `findTagIdByName` in `Serie.js`
(lines 604-619); keys are matched by exact JS property lookup. -/
def categoryVariantsSerie : List (List Char × List (List Char)) :=
  [(jsStr "Source", [jsStr "Source", jsStr "Source / Type"]),
   (jsStr "Source / Type", [jsStr "Source", jsStr "Source / Type"]),
   (jsStr "Langue audio", [jsStr "Langue audio", jsStr "Langues audio"]),
   (jsStr "Langues audio", [jsStr "Langue audio", jsStr "Langues audio"]),
   (jsStr "Codec vidéo", [jsStr "Codec vidéo"]),
   (jsStr "Codec audio", [jsStr "Codec audio"]),
   (jsStr "Extension", [jsStr "Extension", jsStr "Extensions"]),
   (jsStr "Sous-titres", [jsStr "Sous-titres", jsStr "Sous titres"]),
   (jsStr "Résolution", [jsStr "Résolution", jsStr "Qualité / Résolution"]),
   (jsStr "Qualité / Résolution", [jsStr "Résolution", jsStr "Qualité / Résolution"]),
   (jsStr "Genre", [jsStr "Genre", jsStr "Genres"]),
   (jsStr "HDR", [jsStr "HDR", jsStr "Caractéristiques vidéo"]),
   (jsStr "Caractéristiques vidéo", [jsStr "HDR", jsStr "Caractéristiques vidéo"]),
   (jsStr "Type", [jsStr "Type"])]

/-- First tag of the category list satisfying `p`, scanning categories
then tags in order. -/
def findTagIn (cats : List TagCategory) (p : Tag → Bool) : Option Nat :=
  cats.findSome? (fun c => (c.tags.find? p).map (fun t => t.id))

/-- Alias condition of the tag matcher: the (normalized) query has an
alias entry, one of whose values is a substring of the normalized tag
name. -/
def tagAliasCond (normName : List Char) (tg : Tag) : Bool :=
  match lookupAssoc aliasesSerie normName with
  | some as => as.any (fun a => containsSub (normS tg.name) (normS a))
  | none => false

/-- Embedding of `findTagIdByName` (Serie.js lines 577-649): category
restriction by the synonym table, then exact-or-alias search, then a
partial (substring) search, then an unscoped exact-or-alias-or-partial
fallback.  Returns `none` (JS `null`) when nothing matches. -/
def findTagIdByName (name : List Char) (category : Option (List Char)) (cache : TagCache) : Option Nat :=
  if name = [] then none
  else
    let normName := normS name
    let cats := match category with
      | some cat =>
        (match lookupAssoc categoryVariantsSerie cat with
         | some vars => cache.categories.filter (fun c => vars.any (fun v => normS c.name = normS v))
         | none => cache.categories.filter (fun c => normS c.name = normS cat))
      | none => cache.categories
    match findTagIn cats (fun tg => normS tg.name = normName ∨ tagAliasCond normName tg) with
    | some id => some id
    | none =>
      match findTagIn cats (fun tg => containsSub (normS tg.name) normName) with
      | some id => some id
      | none =>
        findTagIn cache.categories (fun tg =>
          normS tg.name = normName ∨ tagAliasCond normName tg ∨ containsSub (normS tg.name) normName)

/-- Scan of a tag list with a JS-falsy accumulator: `0` means the JS
`genreId` is still unset; the loop breaks at the first non-zero id. -/
def scanTagsZ (f : Tag → Nat) : List Tag → Nat
  | [] => 0
  | t :: r => let v := f t; if v ≠ 0 then v else scanTagsZ f r

/-- Scan of a category list with the same break-on-truthy structure. -/
def scanCatsZ (f : Tag → Nat) : List TagCategory → Nat
  | [] => 0
  | c :: r => let v := scanTagsZ f c.tags; if v ≠ 0 then v else scanCatsZ f r

/-- Categories whose normalized name is `genre` or `genres`. -/
def genreCatsOf (cats : List TagCategory) : List TagCategory :=
  cats.filter (fun c => normS c.name = jsStr "genre" ∨ normS c.name = jsStr "genres")

/-- Genre alias table of `Serie.prototype.getAutoTags` (lines 763-767). -/
def genreAliasesSerie : List (List Char × List (List Char)) :=
  [(jsStr "sf", [jsStr "science-fiction", jsStr "sci-fi"]),
   (jsStr "comedy", [jsStr "comédie", jsStr "comedy"])]

/-- Per-tag match of the non-Téléfilm genre loop (Serie.js lines
790-794): exact normalized match, else alias match; `0` for no match. -/
def genreMatchF (ng : List Char) (tg : Tag) : Nat :=
  if normS tg.name = ng then tg.id
  else match lookupAssoc genreAliasesSerie ng with
    | some as => if as.any (fun a => normS tg.name = normS a) then tg.id else 0
    | none => 0

/-- Strict/alias genre lookup of the non-Téléfilm branch (Serie.js
lines 788-797): first tag of the genre categories whose normalized
name equals the normalized genre, or equals an alias of it. -/
def lookupGenreTag (ng : List Char) (gcats : List TagCategory) : Nat :=
  scanCatsZ (genreMatchF ng) gcats

/-- Per-tag match of the sole-Téléfilm loop (Serie.js lines 775-778). -/
def telefilmMatchF (tg : Tag) : Nat :=
  if normS tg.name = jsStr "téléfilm" ∨ normS tg.name = jsStr "telefilm" then tg.id
  else if [jsStr "téléfilm", jsStr "telefilm"].any (fun a => normS tg.name = normS a) then tg.id
  else 0

/-- Strict Téléfilm lookup of the sole-genre branch (Serie.js lines
771-781). -/
def findTelefilmId (gcats : List TagCategory) : Nat :=
  scanCatsZ telefilmMatchF gcats

/-- Embedding of the genre-resolution section of
`Serie.prototype.getAutoTags` (Serie.js lines 760-801): the Téléfilm
tag is looked up only when the genre list normalizes to exactly
`[telefilm]`; otherwise Téléfilm entries are skipped and the remaining
genres are resolved by strict/alias match in the genre categories. -/
def serieGenreTags (genres : List (List Char)) (cats : List TagCategory) : List Nat :=
  if genres = [] then []
  else
    let gcats := genreCatsOf cats
    let normGenres := genres.map normS
    if normGenres.length = 1 ∧
       (normGenres.head? = some (jsStr "téléfilm") ∨ normGenres.head? = some (jsStr "telefilm")) then
      let id := findTelefilmId gcats
      if id ≠ 0 then [id] else []
    else
      genres.filterMap (fun g =>
        let ng := normS g
        if ng = jsStr "téléfilm" ∨ ng = jsStr "telefilm" then none
        else
          let id := lookupGenreTag ng gcats
          if id ≠ 0 then some id else none)

/-- Concrete taxonomy used to exercise the genre special case. -/
def sampleGenreTaxonomy : List TagCategory :=
  [{ name := jsStr "Type", tags := [{ id := 1, name := jsStr "Film" }, { id := 2, name := jsStr "Série" }] },
   { name := jsStr "Genres",
     tags := [{ id := 7, name := jsStr "Téléfilm" }, { id := 9, name := jsStr "Drame" },
              { id := 11, name := jsStr "Comédie" }] }]

example : serieGenreTags [jsStr "Téléfilm", jsStr "Drame"] sampleGenreTaxonomy = [9] := by decide
example : serieGenreTags [jsStr "Téléfilm"] sampleGenreTaxonomy = [7] := by decide
example : findTagIdByName (jsStr "Drame") (some (jsStr "Genre")) ⟨sampleGenreTaxonomy⟩ = some 9 := by decide

/-- Constructor options of the dynamic-`isPack` `Serie` class
(Serie.js lines 395-422). -/
structure SerieOptions where
  episode : List Char := []
  episodeCount : Nat := 0
  isPack : Option Bool := none
  season : List Char := []
deriving DecidableEq

/-- Mutable state of a `Serie` relevant to the pack/episode invariant. -/
structure SerieState where
  episode : List Char
  episodeCount : Nat
  isPack : Bool
  season : List Char
deriving DecidableEq

/-- Embedding of `Serie.prototype._updateIsPack` (Serie.js lines
437-445): a non-blank episode clears the pack flag, else an episode
count above one sets it, else the stored value is kept. -/
def updateIsPack (s : SerieState) : SerieState :=
  if s.episode ≠ [] ∧ trimWs s.episode ≠ [] then { s with isPack := false }
  else if s.episodeCount > 1 then { s with isPack := true }
  else s

/-- Embedding of the `Serie` constructor (Serie.js lines 399-422):
`_isPack` is the supplied option if present, else `episodeCount > 1`,
and `_updateIsPack` runs last. -/
def mkSerie (o : SerieOptions) : SerieState :=
  let initPack := match o.isPack with | some b => b | none => decide (o.episodeCount > 1)
  updateIsPack { episode := o.episode, episodeCount := o.episodeCount, isPack := initPack, season := o.season }

/-- Embedding of the `episode` setter (Serie.js lines 429-433). -/
def setEpisode (s : SerieState) (v : List Char) : SerieState :=
  updateIsPack { s with episode := v }

/-- Embedding of the `type` getter (Serie.js lines 450-453). -/
def serieType (s : SerieState) : List Char :=
  if s.isPack then jsStr "season" else jsStr "episode"

example : (mkSerie { episode := jsStr "E01", isPack := some true }).isPack = false := by decide
example : (mkSerie { episode := jsStr " ", isPack := some true }).isPack = true := by decide

/-- C1 counterexample: for audio tracks `["Français","English"]` the
advisory language is `MULTi`, but the name composer's language slot of
the resulting bag is not the token `MULTI` (neither in the part_003
generator nor in the `Media` method): English is excluded from the
`otherLanguages` count, so the generic-French-alone branch fires. -/
theorem C1_counterexample :
    parseMediaInfoLanguage [jsStr "Français", jsStr "English"] = jsStr "MULTi" ∧
    generateLanguageParts { audioLanguages := parseAudioLanguages [jsStr "Français", jsStr "English"] }
      ≠ [jsStr "MULTI"] ∧
    mediaGetLanguageParts { audioLanguages := parseAudioLanguages [jsStr "Français", jsStr "English"] }
      ≠ [jsStr "MULTI"] := by
  decide

/-- C1 amended: audio tracks `["Français","English"]` yield the
advisory language `MULTi`, normalized audio languages
`["Français","Anglais"]`, and a language-slot token `VFF` (not
`MULTI`) from both name-composer implementations. -/
theorem C1_language_slot_vff :
    parseMediaInfoLanguage [jsStr "Français", jsStr "English"] = jsStr "MULTi" ∧
    parseAudioLanguages [jsStr "Français", jsStr "English"] = [jsStr "Français", jsStr "Anglais"] ∧
    generateLanguageParts { audioLanguages := [jsStr "Français", jsStr "Anglais"], isVOSTFR := false }
      = [jsStr "VFF"] ∧
    mediaGetLanguageParts { audioLanguages := [jsStr "Français", jsStr "Anglais"], isVOSTFR := false }
      = [jsStr "VFF"] := by
  decide

/-- C2: the filename parses to the claimed fields (resolution, season
and episode left unset), but composing the name with resolution
`1080p` and codec `x264` supplied yields `...X264-GROUP`: the codec
slot upper-cases an already-canonical `x264` while mapping the synonym
`AVC` to lower-case `x264`, so the round-trip differs in the casing of
the codec token. -/
theorem C2_roundtrip_eval :
    parseReleaseName (jsStr "Example.Movie.2019.1080p.BluRay.x264-GROUP") =
      { title := jsStr "Example Movie", year := jsStr "2019",
        source := jsStr "BluRay", releaseGroup := jsStr "GROUP" } ∧
    generateMovieReleaseName
      { parseReleaseName (jsStr "Example.Movie.2019.1080p.BluRay.x264-GROUP") with
        resolution := jsStr "1080p", codec := jsStr "x264" }
      = jsStr "Example.Movie.2019.1080p.BluRay.X264-GROUP" ∧
    jsStr "Example.Movie.2019.1080p.BluRay.X264-GROUP" ≠
      jsStr "Example.Movie.2019.1080p.BluRay.x264-GROUP" ∧
    movieCodecPart (jsStr "AVC") = jsStr "x264" ∧
    movieCodecPart (jsStr "x264") = jsStr "X264" := by
  decide

/-- C4 counterexample: duplicate HDR entries are kept by the HDR slot,
so duplicated tokens do appear (`getHdrParts` sorts but never
deduplicates). -/
theorem C4_counterexample :
    hdrParts [jsStr "HDR10", jsStr "HDR10"] = [jsStr "HDR10", jsStr "HDR10"] ∧
    ¬ (hdrParts [jsStr "HDR10", jsStr "HDR10"]).Nodup := by
  decide

/-- C4 amended: the HDR slot serializes the entries in the fixed
priority order (`["DV","HDR10"]` renders as `HDR10.DV`), and for every
input the output is sorted by the priority comparator and is a
permutation of the mapped input — order is never the input order, but
the rendering is not deduplicated. -/
theorem C4_hdr_priority_sorted :
    hdrParts [jsStr "DV", jsStr "HDR10"] = [jsStr "HDR10", jsStr "DV"] ∧
    ∀ hdr : List (List Char),
      (hdrParts hdr).Pairwise hdrLe ∧ (hdrParts hdr).Perm (hdr.map mapHdr) := by
  refine ⟨by decide, fun hdr => ⟨?_, ?_⟩⟩
  · exact List.sorted_insertionSort hdrLe (hdr.map mapHdr)
  · exact List.perm_insertionSort hdrLe (hdr.map mapHdr)

/-- C5 counterexample: with the unknown label `ZZZ` and the known label
`HDR10`, the serialized HDR slot is `ZZZ.HDR10` — the unknown label
appears before (not after) the known one, because `indexOf` yields
`-1` for unknown labels. -/
theorem C5_counterexample :
    hdrParts [jsStr "ZZZ", jsStr "HDR10"] = [jsStr "ZZZ", jsStr "HDR10"] ∧
    hdrOrderL.contains (jsStr "HDR10") = true ∧
    hdrOrderL.contains (jsStr "ZZZ") = false ∧
    hdrIdx (jsStr "ZZZ") = -1 := by
  decide

/-- C5 amended: in the HDR slot every unknown label sorts before every
known label (never after): along the output, once a label with a
non-negative priority index appears, every later label also has a
non-negative index. -/
theorem C5_unknown_labels_sort_first :
    ∀ hdr : List (List Char),
      (hdrParts hdr).Pairwise (fun a b => 0 ≤ hdrIdx a → 0 ≤ hdrIdx b) := by
  intro hdr
  have h := List.sorted_insertionSort hdrLe (hdr.map mapHdr)
  exact h.imp (fun hab h0 => le_trans h0 hab)

/-- C7: the resolution derived from a video track depends on width OR
height independently, with the fixed thresholds of `parseMediaInfo`,
any positive dimension falling back to `480p`; in particular width
3840 yields `2160p` and width 1920 yields `1080p`. -/
theorem C7_resolution_thresholds :
    (∀ w h : Int, (w ≥ 3840 ∨ h ≥ 2100) → parseResolution w h = some (jsStr "2160p")) ∧
    (∀ w h : Int, ¬ (w ≥ 3840 ∨ h ≥ 2100) → (w ≥ 1920 ∨ h ≥ 1000) →
       parseResolution w h = some (jsStr "1080p")) ∧
    (∀ w h : Int, ¬ (w ≥ 3840 ∨ h ≥ 2100) → ¬ (w ≥ 1920 ∨ h ≥ 1000) → (w ≥ 1280 ∨ h ≥ 700) →
       parseResolution w h = some (jsStr "720p")) ∧
    (∀ w h : Int, ¬ (w ≥ 3840 ∨ h ≥ 2100) → ¬ (w ≥ 1920 ∨ h ≥ 1000) → ¬ (w ≥ 1280 ∨ h ≥ 700) →
       (w > 0 ∨ h > 0) → parseResolution w h = some (jsStr "480p")) ∧
    parseResolution 3840 2160 = some (jsStr "2160p") ∧
    parseResolution 1920 1080 = some (jsStr "1080p") := by
  refine ⟨?_, ?_, ?_, ?_, by decide, by decide⟩
  · intro w h h1
    simp only [parseResolution, if_pos h1]
  · intro w h h1 h2
    simp only [parseResolution, if_neg h1, if_pos h2]
  · intro w h h1 h2 h3
    simp only [parseResolution, if_neg h1, if_neg h2, if_pos h3]
  · intro w h h1 h2 h3 h4
    simp only [parseResolution, if_neg h1, if_neg h2, if_neg h3, if_pos h4]

/-- Witness for C7 at concrete dimensions. -/
theorem C7_resolution_thresholds_witness :
    parseResolution 1280 0 = some (jsStr "720p") :=
  C7_resolution_thresholds.2.2.1 1280 0 (by decide) (by decide) (by decide)

/-- C8: the tag matcher returns no match (never an exception — the
embedding is a total function) when the query value is empty, for
every category hint and every taxonomy, and when the taxonomy has no
categories, for every query and category hint. -/
theorem C8_invalid_input_no_match :
    (∀ (category : Option (List Char)) (cache : TagCache),
       findTagIdByName [] category cache = none) ∧
    (∀ (name : List Char) (category : Option (List Char)),
       findTagIdByName name category ⟨[]⟩ = none) := by
  constructor
  · intro category cache
    simp [findTagIdByName]
  · intro name category
    unfold findTagIdByName
    by_cases h : name = []
    · simp [h]
    · simp only [h, if_false, if_neg]
      cases category with
      | none => simp [findTagIn]
      | some c =>
        cases hl : lookupAssoc categoryVariantsSerie c <;>
          simp [findTagIn, hl]

/-- C10 counterexample: a whitespace-only episode value is a non-empty
string, yet constructing with it and `isPack: true` leaves the pack
state set (`type` is `season`): `_updateIsPack` only clears the flag
when the episode is non-blank after trimming. -/
theorem C10_counterexample :
    (mkSerie { episode := jsStr " ", episodeCount := 0, isPack := some true }).isPack = true ∧
    jsStr " " ≠ ([] : List Char) ∧
    serieType (mkSerie { episode := jsStr " ", episodeCount := 0, isPack := some true })
      = jsStr "season" := by
  decide

/-- Clearing lemma for `_updateIsPack`: a non-blank episode forces the
pack flag off. -/
theorem updateIsPack_of_nonblank (s : SerieState) (h : trimWs s.episode ≠ []) :
    (updateIsPack s).isPack = false := by
  have he : s.episode ≠ [] := by
    intro h0
    rw [h0] at h
    exact h rfl
  unfold updateIsPack
  rw [if_pos ⟨he, h⟩]

/-- C10 amended: a NON-BLANK episode value (non-empty after trimming
whitespace) always leaves `isPack = false` (`type = 'episode'`), both
at construction — even when `isPack: true` is supplied — and on an
episode assignment. -/
theorem C10_nonblank_episode_never_pack :
    (∀ o : SerieOptions, trimWs o.episode ≠ [] →
       (mkSerie o).isPack = false ∧ serieType (mkSerie o) = jsStr "episode") ∧
    (∀ (s : SerieState) (v : List Char), trimWs v ≠ [] →
       (setEpisode s v).isPack = false ∧ serieType (setEpisode s v) = jsStr "episode") := by
  constructor
  · intro o h
    have hp : (mkSerie o).isPack = false := updateIsPack_of_nonblank _ h
    exact ⟨hp, by simp [serieType, hp]⟩
  · intro s v h
    have hp : (setEpisode s v).isPack = false := updateIsPack_of_nonblank _ h
    exact ⟨hp, by simp [serieType, hp]⟩

/-- Witness for C10 at a concrete construction and assignment. -/
theorem C10_nonblank_episode_never_pack_witness :
    (mkSerie { episode := jsStr "E07", episodeCount := 9, isPack := some true }).isPack = false ∧
    (setEpisode { episode := [], episodeCount := 9, isPack := true, season := jsStr "S02" }
        (jsStr "E03")).isPack = false :=
  ⟨(C10_nonblank_episode_never_pack.1 _ (by decide)).1,
   (C10_nonblank_episode_never_pack.2 _ _ (by decide)).1⟩

theorem scanTagsZ_eq_zero_iff (f : Tag → Nat) :
    ∀ tags : List Tag, (scanTagsZ f tags = 0 ↔ ∀ tg ∈ tags, f tg = 0) := by
  intro tags
  induction tags with
  | nil => simp [scanTagsZ]
  | cons t r ih =>
    by_cases hv : f t ≠ 0
    · simp only [scanTagsZ]
      rw [if_pos hv]
      constructor
      · intro h; exact absurd h hv
      · intro h; exact absurd (h t (List.mem_cons_self t r)) hv
    · push_neg at hv
      simp only [scanTagsZ]
      rw [if_neg (not_not_intro hv)]
      constructor
      · intro h tg htg
        rcases List.mem_cons.mp htg with he | hm
        · exact he ▸ hv
        · exact (ih.mp h) tg hm
      · intro h
        exact ih.mpr (fun tg hm => h tg (List.mem_cons_of_mem t hm))

theorem scanTagsZ_eq (f : Tag → Nat) (D : Nat) (hD : D ≠ 0) :
    ∀ tags : List Tag, (∀ tg ∈ tags, f tg = 0 ∨ f tg = D) → (∃ tg ∈ tags, f tg ≠ 0) →
      scanTagsZ f tags = D := by
  intro tags
  induction tags with
  | nil =>
    rintro _ ⟨tg, htg, _⟩
    exact absurd htg (List.not_mem_nil tg)
  | cons t r ih =>
    intro hall hex
    by_cases hv : f t ≠ 0
    · have ht : f t = D := (hall t (List.mem_cons_self t r)).resolve_left hv
      simp only [scanTagsZ]
      rw [if_pos hv, ht]
    · push_neg at hv
      have hr : ∃ tg ∈ r, f tg ≠ 0 := by
        obtain ⟨tg, htg, hne⟩ := hex
        rcases List.mem_cons.mp htg with h | h
        · exact absurd (h ▸ hv) hne
        · exact ⟨tg, h, hne⟩
      have hrec := ih (fun tg h => hall tg (List.mem_cons_of_mem t h)) hr
      simp only [scanTagsZ]
      rw [if_neg (not_not_intro hv), hrec]

theorem scanCatsZ_eq (f : Tag → Nat) (D : Nat) (hD : D ≠ 0) :
    ∀ cats : List TagCategory,
      (∀ c ∈ cats, ∀ tg ∈ c.tags, f tg = 0 ∨ f tg = D) →
      (∃ c ∈ cats, ∃ tg ∈ c.tags, f tg ≠ 0) →
      scanCatsZ f cats = D := by
  intro cats
  induction cats with
  | nil =>
    rintro _ ⟨c, hc, _⟩
    exact absurd hc (List.not_mem_nil c)
  | cons c r ih =>
    intro hall hex
    by_cases hv : scanTagsZ f c.tags ≠ 0
    · have hcz : ∃ tg ∈ c.tags, f tg ≠ 0 := by
        by_contra hno
        push_neg at hno
        exact hv ((scanTagsZ_eq_zero_iff f c.tags).mpr hno)
      have hc : scanTagsZ f c.tags = D :=
        scanTagsZ_eq f D hD c.tags (hall c (List.mem_cons_self c r)) hcz
      simp only [scanCatsZ]
      rw [if_pos hv, hc]
    · push_neg at hv
      have hzero : ∀ tg ∈ c.tags, f tg = 0 := (scanTagsZ_eq_zero_iff f c.tags).mp hv
      have hr : ∃ c2 ∈ r, ∃ tg ∈ c2.tags, f tg ≠ 0 := by
        obtain ⟨c2, hc2, tg, htg, hne⟩ := hex
        rcases List.mem_cons.mp hc2 with h | h
        · exact absurd (hzero tg (h ▸ htg)) hne
        · exact ⟨c2, h, tg, htg, hne⟩
      have hrec := ih (fun c2 h => hall c2 (List.mem_cons_of_mem c h)) hr
      simp only [scanCatsZ]
      rw [if_neg (not_not_intro hv), hrec]

theorem scanTagsZ_mem (f : Tag → Nat) :
    ∀ tags : List Tag, scanTagsZ f tags ≠ 0 →
      ∃ tg ∈ tags, f tg = scanTagsZ f tags := by
  intro tags
  induction tags with
  | nil => intro h; exact absurd rfl h
  | cons t r ih =>
    intro h
    by_cases hv : f t ≠ 0
    · refine ⟨t, List.mem_cons_self t r, ?_⟩
      simp only [scanTagsZ]
      rw [if_pos hv]
    · push_neg at hv
      have hr : scanTagsZ f (t :: r) = scanTagsZ f r := by
        simp only [scanTagsZ]
        rw [if_neg (not_not_intro hv)]
      obtain ⟨tg, htg, he⟩ := ih (hr ▸ h)
      exact ⟨tg, List.mem_cons_of_mem t htg, by rw [hr, he]⟩

theorem scanCatsZ_mem (f : Tag → Nat) :
    ∀ cats : List TagCategory, scanCatsZ f cats ≠ 0 →
      ∃ c ∈ cats, ∃ tg ∈ c.tags, f tg = scanCatsZ f cats := by
  intro cats
  induction cats with
  | nil => intro h; exact absurd rfl h
  | cons c r ih =>
    intro h
    by_cases hv : scanTagsZ f c.tags ≠ 0
    · obtain ⟨tg, htg, he⟩ := scanTagsZ_mem f c.tags hv
      refine ⟨c, List.mem_cons_self c r, tg, htg, ?_⟩
      simp only [scanCatsZ]
      rw [if_pos hv, ← he]
    · push_neg at hv
      have hr : scanCatsZ f (c :: r) = scanCatsZ f r := by
        simp only [scanCatsZ]
        rw [if_neg (not_not_intro hv)]
      obtain ⟨c2, hc2, tg, htg, he⟩ := ih (hr ▸ h)
      exact ⟨c2, List.mem_cons_of_mem c hc2, tg, htg, by rw [hr, he]⟩

/-- No value of the genre alias table normalizes to `telefilm`. -/
theorem genreAlias_no_telefilm (ng : List Char) (as : List (List Char))
    (h : lookupAssoc genreAliasesSerie ng = some as) :
    ∀ a ∈ as, normS a ≠ jsStr "telefilm" := by
  obtain ⟨p, hp, hpv⟩ := Option.map_eq_some'.mp h
  have hmem : p ∈ genreAliasesSerie := List.mem_of_find?_eq_some hp
  have : p = (jsStr "sf", [jsStr "science-fiction", jsStr "sci-fi"]) ∨
         p = (jsStr "comedy", [jsStr "comédie", jsStr "comedy"]) := by
    simpa [genreAliasesSerie] using hmem
  rcases this with hcase | hcase <;> subst hcase <;> subst hpv <;> decide

/-- Characterization of a non-zero per-tag genre match: it is the
tag's id, matched exactly or through an alias. -/
theorem genreMatchF_char (ng : List Char) (tg : Tag) (h : genreMatchF ng tg ≠ 0) :
    genreMatchF ng tg = tg.id ∧
      (normS tg.name = ng ∨
       ∃ as, lookupAssoc genreAliasesSerie ng = some as ∧ ∃ a ∈ as, normS tg.name = normS a) := by
  by_cases hx : normS tg.name = ng
  · refine ⟨?_, Or.inl hx⟩
    simp only [genreMatchF]
    rw [if_pos hx]
  · cases hl : lookupAssoc genreAliasesSerie ng with
    | none =>
      exfalso
      apply h
      simp only [genreMatchF]
      rw [if_neg hx, hl]
    | some as =>
      by_cases ha : as.any (fun a => normS tg.name = normS a)
      · refine ⟨?_, Or.inr ⟨as, rfl, ?_⟩⟩
        · simp only [genreMatchF]
          rw [if_neg hx, hl]
          show (if as.any (fun a => normS tg.name = normS a) then tg.id else 0) = tg.id
          rw [if_pos ha]
        · obtain ⟨a, haa, he2⟩ := List.any_eq_true.mp ha
          exact ⟨a, haa, of_decide_eq_true he2⟩
      · exfalso
        apply h
        simp only [genreMatchF]
        rw [if_neg hx, hl]
        show (if as.any (fun a => normS tg.name = normS a) then tg.id else 0) = 0
        rw [if_neg ha]

/-- Any non-zero result of the strict/alias genre lookup is the id of
some genre-category tag matched exactly or through an alias. -/
theorem lookupGenreTag_mem (ng : List Char) (gcats : List TagCategory)
    (h : lookupGenreTag ng gcats ≠ 0) :
    ∃ c ∈ gcats, ∃ tg ∈ c.tags, tg.id = lookupGenreTag ng gcats ∧
      (normS tg.name = ng ∨
       ∃ as, lookupAssoc genreAliasesSerie ng = some as ∧ ∃ a ∈ as, normS tg.name = normS a) := by
  simp only [lookupGenreTag] at h ⊢
  obtain ⟨c, hc, tg, htg, he⟩ := scanCatsZ_mem (genreMatchF ng) gcats h
  have hnz : genreMatchF ng tg ≠ 0 := by rw [he]; exact h
  obtain ⟨hid, hm⟩ := genreMatchF_char ng tg hnz
  exact ⟨c, hc, tg, htg, by rw [← hid, he], hm⟩

/-- C6: with a taxonomy whose genre category carries the Téléfilm tag
(id `T`) and the Drame tag (id `D`), the genre list
`["Téléfilm","Drame"]` resolves to exactly `[D]` — the Drame id is
included and the Téléfilm id excluded; and in general the Téléfilm id
is only ever selected when the normalized genre list is exactly the
single genre `telefilm`. -/
theorem C6_telefilm_sole_genre :
    (∀ (cats : List TagCategory) (T D : Nat),
       (∃ c ∈ genreCatsOf cats, ∃ tg ∈ c.tags, normS tg.name = jsStr "telefilm" ∧ tg.id = T) →
       (∀ c ∈ genreCatsOf cats, ∀ tg ∈ c.tags, normS tg.name = jsStr "drame" → tg.id = D) →
       (∃ c ∈ genreCatsOf cats, ∃ tg ∈ c.tags, normS tg.name = jsStr "drame") →
       D ≠ 0 → T ≠ D →
       serieGenreTags [jsStr "Téléfilm", jsStr "Drame"] cats = [D] ∧
       D ∈ serieGenreTags [jsStr "Téléfilm", jsStr "Drame"] cats ∧
       T ∉ serieGenreTags [jsStr "Téléfilm", jsStr "Drame"] cats) ∧
    (∀ (genres : List (List Char)) (cats : List TagCategory) (T : Nat),
       (∀ c ∈ genreCatsOf cats, ∀ tg ∈ c.tags, tg.id = T → normS tg.name = jsStr "telefilm") →
       T ∈ serieGenreTags genres cats →
       genres.map normS = [jsStr "telefilm"] ∨ genres.map normS = [jsStr "téléfilm"]) := by
  constructor
  · intro cats T D _hT hDall hDex hD0 hTD
    have hnone : lookupAssoc genreAliasesSerie (jsStr "drame") = none := by decide
    have hlookup : lookupGenreTag (jsStr "drame") (genreCatsOf cats) = D := by
      simp only [lookupGenreTag]
      apply scanCatsZ_eq _ D hD0
      · intro c hc tg htg
        by_cases hx : normS tg.name = jsStr "drame"
        · right
          have hid := hDall c hc tg htg hx
          simp only [genreMatchF]
          rw [if_pos hx, hid]
        · left
          simp only [genreMatchF]
          rw [if_neg hx, hnone]
      · obtain ⟨c, hc, tg, htg, hx⟩ := hDex
        refine ⟨c, hc, tg, htg, ?_⟩
        have hid : tg.id = D := hDall c hc tg htg hx
        simp only [genreMatchF]
        rw [if_pos hx, hid]
        exact hD0
    have hmain : serieGenreTags [jsStr "Téléfilm", jsStr "Drame"] cats = [D] := by
      unfold serieGenreTags
      rw [if_neg (by decide)]
      have hcond : ¬ (([jsStr "Téléfilm", jsStr "Drame"].map normS).length = 1 ∧
          (([jsStr "Téléfilm", jsStr "Drame"].map normS).head? = some (jsStr "téléfilm") ∨
           ([jsStr "Téléfilm", jsStr "Drame"].map normS).head? = some (jsStr "telefilm"))) := by
        decide
      rw [if_neg hcond]
      show List.filterMap _ [jsStr "Téléfilm", jsStr "Drame"] = [D]
      rw [List.filterMap_cons, List.filterMap_cons, List.filterMap_nil]
      have e1 : normS (jsStr "Téléfilm") = jsStr "telefilm" := by decide
      have e2 : normS (jsStr "Drame") = jsStr "drame" := by decide
      simp only [e1, e2]
      rw [if_pos (by decide)]
      rw [if_neg (by decide)]
      simp [hlookup, hD0]
    refine ⟨hmain, by simp [hmain], ?_⟩
    rw [hmain]
    intro hT2
    exact hTD (List.mem_singleton.mp hT2)
  · intro genres cats T hT hmem
    unfold serieGenreTags at hmem
    by_cases hg : genres = []
    · simp [hg] at hmem
    · rw [if_neg hg] at hmem
      by_cases hcond : ((genres.map normS).length = 1 ∧
          ((genres.map normS).head? = some (jsStr "téléfilm") ∨
           (genres.map normS).head? = some (jsStr "telefilm")))
      · obtain ⟨hlen, hhead⟩ := hcond
        rcases hx : genres.map normS with _ | ⟨x, r⟩
        · rw [hx] at hlen; simp at hlen
        · rcases r with _ | ⟨y, r2⟩
          · rw [hx] at hhead
            rcases hhead with h | h
            · have hx2 : x = jsStr "téléfilm" := by simpa using h
              rw [hx2]
              exact Or.inr rfl
            · have hx2 : x = jsStr "telefilm" := by simpa using h
              rw [hx2]
              exact Or.inl rfl
          · rw [hx] at hlen; simp at hlen
      · exfalso
        rw [if_neg hcond] at hmem
        obtain ⟨g, hgmem, hf⟩ := List.mem_filterMap.mp hmem
        by_cases hng : normS g = jsStr "téléfilm" ∨ normS g = jsStr "telefilm"
        · simp [hng] at hf
        · rw [if_neg hng] at hf
          by_cases hz : lookupGenreTag (normS g) (genreCatsOf cats) ≠ 0
          · rw [if_pos hz] at hf
            have hTid : lookupGenreTag (normS g) (genreCatsOf cats) = T := by
              injection hf
            obtain ⟨c, hc, tg, htg, hid, hmatch⟩ := lookupGenreTag_mem _ _ hz
            have hname : normS tg.name = jsStr "telefilm" := hT c hc tg htg (by rw [hid, hTid])
            rcases hmatch with hx | ⟨as, hl, a, ha, hx⟩
            · exact hng (Or.inr (hx ▸ hname))
            · exact genreAlias_no_telefilm _ _ hl a ha (hx ▸ hname)
          · rw [if_neg hz] at hf
            exact Option.noConfusion hf

/-- Witness for C6 on a concrete taxonomy (Téléfilm id 7, Drame id 9). -/
theorem C6_telefilm_sole_genre_witness :
    serieGenreTags [jsStr "Téléfilm", jsStr "Drame"] sampleGenreTaxonomy = [9] ∧
    (7 : Nat) ∉ serieGenreTags [jsStr "Téléfilm", jsStr "Drame"] sampleGenreTaxonomy ∧
    ([jsStr "Téléfilm"].map normS = [jsStr "telefilm"] ∨
     [jsStr "Téléfilm"].map normS = [jsStr "téléfilm"]) :=
  ⟨(C6_telefilm_sole_genre.1 sampleGenreTaxonomy 7 9 (by decide) (by decide) (by decide)
      (by decide) (by decide)).1,
   (C6_telefilm_sole_genre.1 sampleGenreTaxonomy 7 9 (by decide) (by decide) (by decide)
      (by decide) (by decide)).2.2,
   C6_telefilm_sole_genre.2 [jsStr "Téléfilm"] sampleGenreTaxonomy 7 (by decide) (by decide)⟩

theorem char_toNat_ofNat_valid (n : Nat) (h : n.isValidChar) : (Char.ofNat n).toNat = n := by
  unfold Char.ofNat
  rw [dif_pos h]
  rfl

theorem char_eq_of_toNat_eq {a b : Char} (h : a.toNat = b.toNat) : a = b :=
  Char.eq_of_val_eq (UInt32.eq_of_toBitVec_eq (BitVec.eq_of_toNat_eq h))

theorem toUpper_toNat_range (c : Char) (h : c.toNat ≥ 97 ∧ c.toNat ≤ 122) :
    (Char.toUpper c).toNat = c.toNat - 32 := by
  unfold Char.toUpper
  rw [if_pos h]
  exact char_toNat_ofNat_valid _ (Or.inl (by omega))

theorem toUpper_eq_self (c : Char) (h : ¬ (c.toNat ≥ 97 ∧ c.toNat ≤ 122)) :
    Char.toUpper c = c := by
  unfold Char.toUpper
  rw [if_neg h]

theorem toLower_toNat_range (c : Char) (h : c.toNat ≥ 65 ∧ c.toNat ≤ 90) :
    (Char.toLower c).toNat = c.toNat + 32 := by
  unfold Char.toLower
  rw [if_pos h]
  exact char_toNat_ofNat_valid _ (Or.inl (by omega))

theorem toLower_eq_self (c : Char) (h : ¬ (c.toNat ≥ 65 ∧ c.toNat ≤ 90)) :
    Char.toLower c = c := by
  unfold Char.toLower
  rw [if_neg h]

theorem upper_upper (c : Char) : Char.toUpper (Char.toUpper c) = Char.toUpper c := by
  by_cases h : c.toNat ≥ 97 ∧ c.toNat ≤ 122
  · have ht := toUpper_toNat_range c h
    exact toUpper_eq_self _ (by omega)
  · rw [toUpper_eq_self c h, toUpper_eq_self c h]

theorem lower_lower (c : Char) : Char.toLower (Char.toLower c) = Char.toLower c := by
  by_cases h : c.toNat ≥ 65 ∧ c.toNat ≤ 90
  · have ht := toLower_toNat_range c h
    exact toLower_eq_self _ (by omega)
  · rw [toLower_eq_self c h, toLower_eq_self c h]

theorem toUpper_eq_dot_iff (c : Char) : Char.toUpper c = '.' ↔ c = '.' := by
  constructor
  · intro h
    by_cases hc : c.toNat ≥ 97 ∧ c.toNat ≤ 122
    · exfalso
      have ht := toUpper_toNat_range c hc
      rw [h] at ht
      have h46 : ('.' : Char).toNat = 46 := rfl
      omega
    · rwa [toUpper_eq_self c hc] at h
  · intro h
    subst h
    rfl

theorem toLower_eq_dot_iff (c : Char) : Char.toLower c = '.' ↔ c = '.' := by
  constructor
  · intro h
    by_cases hc : c.toNat ≥ 65 ∧ c.toNat ≤ 90
    · exfalso
      have ht := toLower_toNat_range c hc
      rw [h] at ht
      have h46 : ('.' : Char).toNat = 46 := rfl
      omega
    · rwa [toLower_eq_self c hc] at h
  · intro h
    subst h
    rfl

/-- No-adjacent-dots property of a string (the property established by
the dot-collapsing step of `normalizeTitle`). -/
def noDD (l : List Char) : Prop :=
  List.Chain' (fun a b => ¬ (a = '.' ∧ b = '.')) l

/-- Dot-normalized string: no adjacent dots and no leading or trailing
dot (the property established by the final two steps of
`normalizeTitle`). -/
def dotNorm (l : List Char) : Prop :=
  noDD l ∧ l.head? ≠ some '.' ∧ l.getLast? ≠ some '.'

theorem noDD_reverse {l : List Char} (h : noDD l) : noDD l.reverse := by
  refine List.chain'_reverse.mpr ?_
  exact h.imp (fun a b hab ⟨h1, h2⟩ => hab ⟨h2, h1⟩)

theorem collapseDots_head? : ∀ (b : Char) (r : List Char),
    (collapseDots (b :: r)).head? = some b := by
  intro b r
  induction r generalizing b with
  | nil => rfl
  | cons b2 r3 ih =>
    by_cases h : b = '.' ∧ b2 = '.'
    · simp only [collapseDots]
      rw [if_pos h, ih b2, h.1, h.2]
    · simp only [collapseDots]
      rw [if_neg h]
      rfl

theorem noDD_collapseDots : ∀ l : List Char, noDD (collapseDots l) := by
  intro l
  induction l with
  | nil => exact List.chain'_nil
  | cons a rest ih =>
    cases rest with
    | nil => exact List.chain'_singleton a
    | cons b r2 =>
      by_cases h : a = '.' ∧ b = '.'
      · simpa only [collapseDots, if_pos h] using ih
      · simp only [collapseDots, if_neg h]
        refine List.chain'_cons'.mpr ⟨?_, ih⟩
        intro y hy
        rw [collapseDots_head? b r2] at hy
        intro ⟨ha, hb⟩
        exact h ⟨ha, by rwa [← (Option.some_inj.mp hy)] at hb⟩

theorem collapseDots_eq_self {l : List Char} (h : noDD l) : collapseDots l = l := by
  induction l with
  | nil => rfl
  | cons a rest ih =>
    cases rest with
    | nil => rfl
    | cons b r2 =>
      have hpair : ¬ (a = '.' ∧ b = '.') := by
        have := List.chain'_cons'.mp h
        exact this.1 b rfl
      simp only [collapseDots, if_neg hpair]
      rw [ih (List.chain'_cons'.mp h).2]

theorem noDD_dropLast : ∀ l : List Char, noDD l → noDD l.dropLast := by
  intro l
  induction l with
  | nil => intro _; exact List.chain'_nil
  | cons x rest ih =>
    intro h
    cases rest with
    | nil => exact List.chain'_nil
    | cons y r =>
      have h1 := List.chain'_cons'.mp h
      show noDD (x :: (y :: r).dropLast)
      refine List.chain'_cons'.mpr ⟨?_, ih h1.2⟩
      intro z hz
      cases r with
      | nil => simp at hz
      | cons w r2 =>
        have : ((y :: w :: r2).dropLast).head? = some y := rfl
        rw [this] at hz
        exact (Option.some_inj.mp hz) ▸ h1.1 y rfl

theorem secondLast_not_dot : ∀ l : List Char, noDD l → l.getLast? = some '.' →
    l.dropLast.getLast? ≠ some '.' := by
  intro l
  induction l with
  | nil => intro _ h; simp at h
  | cons x rest ih =>
    intro hn hl
    cases rest with
    | nil =>
      simp
    | cons y r =>
      have h1 := List.chain'_cons'.mp hn
      cases r with
      | nil =>
        have hy : y = '.' := by simpa using hl
        have hx : ¬ (x = '.' ∧ y = '.') := h1.1 y rfl
        simp only [List.dropLast]
        intro hc
        have : x = '.' := by simpa using hc
        exact hx ⟨this, hy⟩
      | cons z r2 =>
        have hrec := ih h1.2 (by rwa [List.getLast?_cons_cons] at hl)
        show ((x :: (y :: z :: r2).dropLast).getLast? ≠ some '.')
        have hne : (y :: z :: r2).dropLast = y :: (z :: r2).dropLast := rfl
        rw [hne, List.getLast?_cons_cons]
        rwa [hne] at hrec

theorem dotNorm_trimDots {l : List Char} (h : noDD l) : dotNorm (trimDots l) := by
  unfold trimDots
  by_cases h1 : l.head? = some '.'
  · rw [if_pos h1]
    rcases l with _ | ⟨c, t⟩
    · simp at h1
    · have hc : c = '.' := by simpa using h1
      subst hc
      have ht : noDD t := (List.chain'_cons'.mp h).2
      have hth : t.head? ≠ some '.' := by
        intro hh
        exact ((List.chain'_cons'.mp h).1 '.' hh) ⟨rfl, rfl⟩
      show dotNorm (if ('.' :: t).tail.getLast? = some '.' then ('.' :: t).tail.dropLast
            else ('.' :: t).tail)
      simp only [List.tail_cons]
      by_cases h2 : t.getLast? = some '.'
      · rw [if_pos h2]
        refine ⟨noDD_dropLast t ht, ?_, secondLast_not_dot t ht h2⟩
        rcases t with _ | ⟨d, t2⟩
        · simp
        · cases t2 with
          | nil => simp
          | cons e t3 =>
            have : ((d :: e :: t3).dropLast).head? = some d := rfl
            rw [this]
            simpa using hth
      · rw [if_neg h2]
        exact ⟨ht, hth, h2⟩
  · rw [if_neg h1]
    by_cases h2 : l.getLast? = some '.'
    · rw [if_pos h2]
      refine ⟨noDD_dropLast l h, ?_, secondLast_not_dot l h h2⟩
      rcases l with _ | ⟨c, t⟩
      · simp
      · cases t with
        | nil => simp
        | cons d t2 =>
          have : ((c :: d :: t2).dropLast).head? = some c := rfl
          rw [this]
          simpa using h1
    · rw [if_neg h2]
      exact ⟨h, h1, h2⟩

theorem trimDots_eq_self {l : List Char} (h1 : l.head? ≠ some '.')
    (h2 : l.getLast? ≠ some '.') : trimDots l = l := by
  unfold trimDots
  rw [if_neg h1]
  exact if_neg h2

/-- Characters unaffected by every character-level step of
`normalizeTitle` (and not whitespace): exactly the characters that can
appear in a word of its output. -/
def tameChar (c : Char) : Prop :=
  stripD c = c ∧ cedC c = c ∧ apoC c = c ∧ fbKeep c = true ∧ dashC c = c ∧ isWs c = false

/-- All characters of the string are tame. -/
def tameL (l : List Char) : Prop := ∀ c ∈ l, tameChar c

theorem stripD_of_le127 {c : Char} (h : c.toNat ≤ 127) : stripD c = c := by
  unfold stripD
  cases hf : stripTable.find? (fun p => p.1 = c) with
  | none => rfl
  | some p =>
    exfalso
    have hp0 := List.find?_some hf
    have hp : p.1 = c := by simpa using hp0
    have hm : p ∈ stripTable := List.mem_of_find?_eq_some hf
    have hbig : ∀ q ∈ stripTable, 127 < q.1.toNat := by decide
    have := hbig p hm
    rw [hp] at this
    omega

theorem stripD_stripD (c : Char) : stripD (stripD c) = stripD c := by
  cases hf : stripTable.find? (fun p => p.1 = c) with
  | none =>
    have h1 : stripD c = c := by unfold stripD; rw [hf]
    rw [h1]
    exact h1
  | some p =>
    have h1 : stripD c = p.2 := by unfold stripD; rw [hf]
    rw [h1]
    have hm : p ∈ stripTable := List.mem_of_find?_eq_some hf
    have hsmall : ∀ q ∈ stripTable, q.2.toNat ≤ 127 := by decide
    exact stripD_of_le127 (hsmall p hm)

theorem char_ne_of_toNat {c a : Char} (h : c.toNat ≠ a.toNat) : c ≠ a :=
  fun he => h (congrArg Char.toNat he)

theorem tame_of_letter {c : Char}
    (h : (65 ≤ c.toNat ∧ c.toNat ≤ 90) ∨ (97 ≤ c.toNat ∧ c.toNat ≤ 122)) : tameChar c := by
  refine ⟨stripD_of_le127 (by omega), ?_, ?_, ?_, ?_, ?_⟩
  · unfold cedC
    rw [if_neg (char_ne_of_toNat (by have : ('ç' : Char).toNat = 231 := rfl; omega)),
        if_neg (char_ne_of_toNat (by have : ('Ç' : Char).toNat = 199 := rfl; omega))]
  · unfold apoC
    rw [if_neg ?_]
    rintro (he | he)
    · have h39 : ('\'' : Char).toNat = 39 := rfl
      rw [he] at h
      omega
    · have h96 : ('`' : Char).toNat = 96 := rfl
      rw [he] at h
      omega
  · simp only [fbKeep, decide_eq_true_eq]
    rintro (he | he | he | he | he | he | he) <;> rw [he] at h <;> revert h <;> decide
  · unfold dashC
    exact if_neg (char_ne_of_toNat (by have : ('-' : Char).toNat = 45 := rfl; omega))
  · simp only [isWs, decide_eq_false_iff_not]
    rintro (he | he | he | he | he | he) <;> rw [he] at h <;> revert h <;> decide

theorem tame_dot : tameChar '.' := by
  refine ⟨?_, rfl, rfl, rfl, rfl, rfl⟩
  exact stripD_of_le127 (by decide)

theorem tame_toUpper {c : Char} (h : tameChar c) : tameChar (Char.toUpper c) := by
  by_cases hr : c.toNat ≥ 97 ∧ c.toNat ≤ 122
  · have := toUpper_toNat_range c hr
    exact tame_of_letter (Or.inl (by omega))
  · rwa [toUpper_eq_self c hr]

theorem tame_toLower {c : Char} (h : tameChar c) : tameChar (Char.toLower c) := by
  by_cases hr : c.toNat ≥ 65 ∧ c.toNat ≤ 90
  · have := toLower_toNat_range c hr
    exact tame_of_letter (Or.inr (by omega))
  · rwa [toLower_eq_self c hr]

theorem map_eq_self_of {l : List Char} {f : Char → Char} (h : ∀ a ∈ l, f a = a) :
    l.map f = l :=
  (List.map_congr_left (g := id) h).trans (List.map_id l)

theorem step15_eq_self {l : List Char} (h : tameL l) : step15 l = l := by
  unfold step15
  rw [map_eq_self_of (fun a ha => (h a ha).1)]
  rw [map_eq_self_of (fun a ha => (h a ha).2.1)]
  rw [map_eq_self_of (fun a ha => (h a ha).2.2.1)]
  rw [List.filter_eq_self.mpr (fun a ha => (h a ha).2.2.2.1)]
  exact map_eq_self_of (fun a ha => (h a ha).2.2.2.2.1)

theorem splitWs_ws_nil (c : Char) (h : isWs c = true) : splitWs [c] = [[], []] := by
  simp [splitWs, h]

theorem splitWs_ws_ws (c c2 : Char) (r : List Char) (h : isWs c = true)
    (h2 : isWs c2 = true) : splitWs (c :: c2 :: r) = splitWs (c2 :: r) := by
  simp [splitWs, h, h2]

theorem splitWs_ws_nws (c c2 : Char) (r : List Char) (h : isWs c = true)
    (h2 : isWs c2 = false) : splitWs (c :: c2 :: r) = [] :: splitWs (c2 :: r) := by
  simp [splitWs, h, h2]

theorem splitWs_nws (c : Char) (rest : List Char) (h : isWs c = false) :
    splitWs (c :: rest) =
      (match splitWs rest with
       | [] => [[c]]
       | w :: ws => (c :: w) :: ws) := by
  simp [splitWs, h]

theorem splitWs_no_ws : ∀ l : List Char, (∀ c ∈ l, isWs c = false) → splitWs l = [l] := by
  intro l
  induction l with
  | nil => intro _; rfl
  | cons c rest ih =>
    intro h
    have hc : isWs c = false := h c (List.mem_cons_self c rest)
    have hrec := ih (fun a ha => h a (List.mem_cons_of_mem c ha))
    rw [splitWs_nws c rest hc, hrec]

theorem splitWs_chars : ∀ l : List Char, ∀ w ∈ splitWs l, ∀ c ∈ w,
    c ∈ l ∧ isWs c = false := by
  intro l
  induction l with
  | nil =>
    intro w hw c hc
    simp only [splitWs, List.mem_singleton] at hw
    subst hw
    exact absurd hc (List.not_mem_nil c)
  | cons a rest ih =>
    intro w hw c hc
    by_cases ha : isWs a
    · cases rest with
      | nil =>
        rw [splitWs_ws_nil a ha] at hw
        rcases List.mem_cons.mp hw with hw | hw
        · subst hw; exact absurd hc (List.not_mem_nil c)
        · rcases List.mem_cons.mp hw with hw | hw
          · subst hw; exact absurd hc (List.not_mem_nil c)
          · exact absurd hw (List.not_mem_nil w)
      | cons a2 r2 =>
        by_cases ha2 : isWs a2
        · rw [splitWs_ws_ws a a2 r2 ha ha2] at hw
          obtain ⟨hmem, hws⟩ := ih w hw c hc
          exact ⟨List.mem_cons_of_mem a hmem, hws⟩
        · rw [splitWs_ws_nws a a2 r2 ha (by simpa using ha2)] at hw
          rcases List.mem_cons.mp hw with hw | hw
          · subst hw; exact absurd hc (List.not_mem_nil c)
          · obtain ⟨hmem, hws⟩ := ih w hw c hc
            exact ⟨List.mem_cons_of_mem a hmem, hws⟩
    · have ha' : isWs a = false := by simpa using ha
      rw [splitWs_nws a rest ha'] at hw
      cases hsp : splitWs rest with
      | nil =>
        rw [hsp] at hw
        simp at hw
        subst hw
        rcases List.mem_cons.mp hc with hc | hc
        · subst hc; exact ⟨List.mem_cons_self c rest, ha'⟩
        · exact absurd hc (List.not_mem_nil c)
      | cons w0 ws0 =>
        rw [hsp] at hw
        rcases List.mem_cons.mp hw with hw | hw
        · subst hw
          rcases List.mem_cons.mp hc with hc | hc
          · subst hc; exact ⟨List.mem_cons_self c rest, ha'⟩
          · obtain ⟨hmem, hws⟩ := ih w0 (hsp ▸ List.mem_cons_self w0 ws0) c hc
            exact ⟨List.mem_cons_of_mem a hmem, hws⟩
        · obtain ⟨hmem, hws⟩ := ih w (hsp ▸ List.mem_cons_of_mem w0 hw) c hc
          exact ⟨List.mem_cons_of_mem a hmem, hws⟩

theorem mem_joinSep : ∀ (ws : List (List Char)) (c : Char), c ∈ joinSep ['.'] ws →
    c = '.' ∨ ∃ w ∈ ws, c ∈ w := by
  intro ws
  induction ws with
  | nil =>
    intro c hc
    exact absurd hc (List.not_mem_nil c)
  | cons w rest ih =>
    intro c hc
    cases rest with
    | nil =>
      right
      exact ⟨w, List.mem_cons_self w [], by simpa [joinSep] using hc⟩
    | cons w2 r2 =>
      have : joinSep ['.'] (w :: w2 :: r2) = w ++ ['.'] ++ joinSep ['.'] (w2 :: r2) := rfl
      rw [this] at hc
      rcases List.mem_append.mp hc with hc | hc
      · rcases List.mem_append.mp hc with hc | hc
        · exact Or.inr ⟨w, List.mem_cons_self w _, hc⟩
        · exact Or.inl (List.mem_singleton.mp hc)
      · rcases ih c hc with h | ⟨w3, hw3, hcw3⟩
        · exact Or.inl h
        · exact Or.inr ⟨w3, List.mem_cons_of_mem w hw3, hcw3⟩

theorem mem_capWord {w : List Char} {c2 : Char} (h : c2 ∈ capWord w) :
    ∃ c ∈ w, c2 = c ∨ c2 = Char.toUpper c ∨ c2 = Char.toLower c := by
  cases w with
  | nil => exact absurd h (List.not_mem_nil c2)
  | cons c rest =>
    by_cases hcond : (c :: rest) = toUpperL (c :: rest) ∧ (c :: rest).length ≤ 4
    · rw [capWord, if_pos hcond] at h
      exact ⟨c2, h, Or.inl rfl⟩
    · rw [capWord, if_neg hcond] at h
      rcases List.mem_cons.mp h with h | h
      · exact ⟨c, List.mem_cons_self c rest, Or.inr (Or.inl h)⟩
      · obtain ⟨d, hd, he⟩ := List.mem_map.mp h
        exact ⟨d, List.mem_cons_of_mem c hd, Or.inr (Or.inr he.symm)⟩

theorem cedC_ne (c : Char) : cedC c ≠ 'ç' ∧ cedC c ≠ 'Ç' := by
  unfold cedC
  by_cases h1 : c = 'ç'
  · rw [if_pos h1]; exact ⟨by decide, by decide⟩
  · rw [if_neg h1]
    by_cases h2 : c = 'Ç'
    · rw [if_pos h2]; exact ⟨by decide, by decide⟩
    · rw [if_neg h2]; exact ⟨h1, h2⟩

theorem tame_pipeline (g : Char)
    (hkeep : fbKeep (apoC (cedC (stripD g))) = true)
    (hws : isWs (dashC (apoC (cedC (stripD g)))) = false) :
    tameChar (dashC (apoC (cedC (stripD g)))) := by
  by_cases hdot : dashC (apoC (cedC (stripD g))) = '.'
  · rw [hdot]
    exact tame_dot
  · have h45 : apoC (cedC (stripD g)) ≠ '-' := fun he => hdot (by rw [dashC, he]; rfl)
    have hdd : dashC (apoC (cedC (stripD g))) = apoC (cedC (stripD g)) := by
      unfold dashC
      rw [if_neg h45]
    rw [hdd] at hdot hws ⊢
    have hapo : apoC (cedC (stripD g)) = cedC (stripD g) := by
      by_cases hin : cedC (stripD g) = '\'' ∨ cedC (stripD g) = '`'
      · exact absurd (by unfold apoC; rw [if_pos hin]) hdot
      · unfold apoC
        rw [if_neg hin]
    rw [hapo] at hdot hws hkeep h45 ⊢
    have hced : cedC (cedC (stripD g)) = cedC (stripD g) := by
      have hne := cedC_ne (stripD g)
      generalize cedC (stripD g) = y at hne ⊢
      unfold cedC
      rw [if_neg hne.1, if_neg hne.2]
    have hstrip : stripD (cedC (stripD g)) = cedC (stripD g) := by
      by_cases h1 : stripD g = 'ç'
      · rw [cedC, if_pos h1]
        exact stripD_of_le127 (by decide)
      · by_cases h2 : stripD g = 'Ç'
        · rw [cedC, if_neg h1, if_pos h2]
          exact stripD_of_le127 (by decide)
        · rw [cedC, if_neg h1, if_neg h2]
          exact stripD_stripD g
    refine ⟨hstrip, hced, hapo, hkeep, ?_, hws⟩
    unfold dashC
    rw [if_neg h45]

theorem step15_chars {l : List Char} {c : Char} (hc : c ∈ step15 l)
    (hws : isWs c = false) : tameChar c := by
  unfold step15 at hc
  obtain ⟨d, hd, hdc⟩ := List.mem_map.mp hc
  obtain ⟨hd2, hkeep⟩ := List.mem_filter.mp hd
  obtain ⟨e, he, hed⟩ := List.mem_map.mp hd2
  obtain ⟨f2, hf2, hfe⟩ := List.mem_map.mp he
  obtain ⟨g, hg, hgf⟩ := List.mem_map.mp hf2
  subst hgf
  subst hfe
  subst hed
  subst hdc
  exact tame_pipeline g hkeep hws

theorem tame_capWord {w : List Char} (h : tameL w) : tameL (capWord w) := by
  intro c2 hc2
  obtain ⟨c, hc, hcase⟩ := mem_capWord hc2
  rcases hcase with he | he | he
  · exact he ▸ h c hc
  · exact he ▸ tame_toUpper (h c hc)
  · exact he ▸ tame_toLower (h c hc)

theorem mem_collapseDots : ∀ l : List Char, ∀ c ∈ collapseDots l, c ∈ l := by
  intro l
  induction l with
  | nil => intro c hc; exact hc
  | cons a rest ih =>
    intro c hc
    cases rest with
    | nil => exact hc
    | cons b r2 =>
      by_cases h : a = '.' ∧ b = '.'
      · rw [collapseDots, if_pos h] at hc
        exact List.mem_cons_of_mem a (ih c hc)
      · rw [collapseDots, if_neg h] at hc
        rcases List.mem_cons.mp hc with hc | hc
        · exact hc ▸ List.mem_cons_self a _
        · exact List.mem_cons_of_mem a (ih c hc)

theorem mem_trimDots {l : List Char} {c : Char} (hc : c ∈ trimDots l) : c ∈ l := by
  unfold trimDots at hc
  by_cases h1 : l.head? = some '.'
  · rw [if_pos h1] at hc
    by_cases h2 : l.tail.getLast? = some '.'
    · rw [if_pos h2] at hc
      exact (List.tail_sublist l).subset ((List.dropLast_sublist l.tail).subset hc)
    · rw [if_neg h2] at hc
      exact (List.tail_sublist l).subset hc
  · rw [if_neg h1] at hc
    by_cases h2 : l.getLast? = some '.'
    · rw [if_pos h2] at hc
      exact (List.dropLast_sublist l).subset hc
    · rw [if_neg h2] at hc
      exact hc

theorem tame_normalizeTitle (t : List Char) : tameL (normalizeTitle t) := by
  intro c hc
  unfold normalizeTitle at hc
  by_cases ht : t = []
  · rw [if_pos ht] at hc
    exact absurd hc (List.not_mem_nil c)
  · rw [if_neg ht] at hc
    have hc2 := mem_collapseDots _ c (mem_trimDots hc)
    rcases mem_joinSep _ c hc2 with h | ⟨w2, hw2, hcw2⟩
    · exact h ▸ tame_dot
    · obtain ⟨w, hw, hweq⟩ := List.mem_map.mp hw2
      subst hweq
      obtain ⟨c0, hc0, hcase⟩ := mem_capWord hcw2
      obtain ⟨hc0mem, hc0ws⟩ := splitWs_chars _ w hw c0 hc0
      have htame0 : tameChar c0 := step15_chars hc0mem hc0ws
      rcases hcase with he | he | he
      · exact he ▸ htame0
      · exact he ▸ tame_toUpper htame0
      · exact he ▸ tame_toLower htame0

theorem dotNorm_normalizeTitle (t : List Char) : dotNorm (normalizeTitle t) := by
  unfold normalizeTitle
  by_cases ht : t = []
  · rw [if_pos ht]
    exact ⟨List.chain'_nil, by simp, by simp⟩
  · rw [if_neg ht]
    exact dotNorm_trimDots (noDD_collapseDots _)

theorem normalizeTitle_tame {u : List Char} (hu : tameL u) :
    normalizeTitle u = trimDots (collapseDots (capWord u)) := by
  by_cases h : u = []
  · subst h
    rfl
  · unfold normalizeTitle
    rw [if_neg h, step15_eq_self hu,
        splitWs_no_ws u (fun c hc => (hu c hc).2.2.2.2.2)]
    rfl

theorem capWord_capWord (w : List Char) : capWord (capWord w) = capWord w := by
  cases w with
  | nil => rfl
  | cons c rest =>
    by_cases hcond : (c :: rest) = toUpperL (c :: rest) ∧ (c :: rest).length ≤ 4
    · have h1 : capWord (c :: rest) = c :: rest := by rw [capWord, if_pos hcond]
      rw [h1, h1]
    · have h1 : capWord (c :: rest) = Char.toUpper c :: toLowerL rest := by
        rw [capWord, if_neg hcond]
      rw [h1]
      by_cases hcond2 : (Char.toUpper c :: toLowerL rest) = toUpperL (Char.toUpper c :: toLowerL rest) ∧
          (Char.toUpper c :: toLowerL rest).length ≤ 4
      · rw [capWord, if_pos hcond2]
      · rw [capWord, if_neg hcond2, upper_upper]
        unfold toLowerL
        rw [List.map_map]
        congr 1
        exact List.map_congr_left (fun a _ => lower_lower a)

theorem dotNorm_capWord {u : List Char} (h : dotNorm u) : dotNorm (capWord u) := by
  obtain ⟨hn, hh, hl⟩ := h
  cases u with
  | nil => exact ⟨List.chain'_nil, by simp [capWord], by simp [capWord]⟩
  | cons c rest =>
    by_cases hcond : (c :: rest) = toUpperL (c :: rest) ∧ (c :: rest).length ≤ 4
    · rw [capWord, if_pos hcond]
      exact ⟨hn, hh, hl⟩
    · rw [capWord, if_neg hcond]
      have hc : c ≠ '.' := by
        intro he
        exact hh (by rw [he]; rfl)
      have hcU : Char.toUpper c ≠ '.' := fun he => hc ((toUpper_eq_dot_iff c).mp he)
      refine ⟨?_, ?_, ?_⟩
      · refine List.chain'_cons'.mpr ⟨fun y _ => fun ⟨h1, _⟩ => hcU h1, ?_⟩
        have hrest : noDD rest := (List.chain'_cons'.mp hn).2
        unfold toLowerL
        refine (List.chain'_map Char.toLower).mpr ?_
        exact hrest.imp (fun a b hab ⟨h1, h2⟩ =>
          hab ⟨(toLower_eq_dot_iff a).mp h1, (toLower_eq_dot_iff b).mp h2⟩)
      · intro he
        exact hcU (by simpa using he)
      · cases rest with
        | nil =>
          intro he
          exact hcU (by simpa [toLowerL] using he)
        | cons b r2 =>
          show (Char.toUpper c :: toLowerL (b :: r2)).getLast? ≠ some '.'
          have e1 : toLowerL (b :: r2) = Char.toLower b :: toLowerL r2 := rfl
          rw [e1, List.getLast?_cons_cons, ← e1]
          unfold toLowerL
          rw [List.getLast?_map]
          have hl2 : (b :: r2).getLast? ≠ some '.' := by
            rwa [List.getLast?_cons_cons] at hl
          cases hlast : (b :: r2).getLast? with
          | none => exact fun he => Option.noConfusion he
          | some d =>
            rw [hlast] at hl2
            intro he
            have : Char.toLower d = '.' := by simpa using he
            exact hl2 (by rw [(toLower_eq_dot_iff d).mp this])

/-- C3 counterexample: title normalization is not idempotent — the
already-normalized title `Ab.Cd` renormalizes to `Ab.cd` (on a second
pass the whole string is a single word, so everything after its first
character is lower-cased). -/
theorem C3_counterexample :
    normalizeTitle (jsStr "Ab Cd") = jsStr "Ab.Cd" ∧
    normalizeTitle (normalizeTitle (jsStr "Ab Cd")) = jsStr "Ab.cd" ∧
    normalizeTitle (normalizeTitle (jsStr "Ab Cd")) ≠ normalizeTitle (jsStr "Ab Cd") := by
  decide

/-- C3 amended: `normalizeTitle` is not idempotent, but it stabilizes
after two applications: for every title `t`, a third normalization
pass leaves the result of the second pass unchanged. -/
theorem C3_normalize_stabilizes (t : List Char) :
    normalizeTitle (normalizeTitle (normalizeTitle t)) = normalizeTitle (normalizeTitle t) := by
  have hu1tame : tameL (normalizeTitle t) := tame_normalizeTitle t
  have hu1dn : dotNorm (normalizeTitle t) := dotNorm_normalizeTitle t
  have hcw : dotNorm (capWord (normalizeTitle t)) := dotNorm_capWord hu1dn
  have h2 : normalizeTitle (normalizeTitle t) = capWord (normalizeTitle t) := by
    rw [normalizeTitle_tame hu1tame, collapseDots_eq_self hcw.1,
        trimDots_eq_self hcw.2.1 hcw.2.2]
  have hu2tame : tameL (capWord (normalizeTitle t)) := tame_capWord hu1tame
  rw [h2, normalizeTitle_tame hu2tame, capWord_capWord,
      collapseDots_eq_self hcw.1, trimDots_eq_self hcw.2.1 hcw.2.2]

/-- Non-empty, no adjacent dots, no leading or trailing dot: the shape
of one slot of a composed name. -/
def dotClean (l : List Char) : Prop :=
  l ≠ [] ∧ noDD l ∧ l.head? ≠ some '.' ∧ l.getLast? ≠ some '.'

/-- Non-empty and entirely dot-free: the shape of a raw field value
that makes a clean token. -/
def tokenOk (l : List Char) : Prop :=
  l ≠ [] ∧ ∀ c ∈ l, c ≠ '.'

/-- Non-empty, dot-free and whitespace-free (needed for audio-codec
fields, whose mapping strips whitespace-prefixed suffixes). -/
def tokenOkW (l : List Char) : Prop :=
  l ≠ [] ∧ ∀ c ∈ l, c ≠ '.' ∧ isWs c = false

/-- Absent-or-clean field hypothesis. -/
def optTok (l : List Char) : Prop := l = [] ∨ tokenOk l

/-- Executable check for `noDD`. -/
def noDDb : List Char → Bool
  | [] => true
  | [_] => true
  | a :: b :: t => (!(decide (a = '.') && decide (b = '.'))) && noDDb (b :: t)

theorem noDD_iff : ∀ l : List Char, noDD l ↔ noDDb l = true := by
  intro l
  induction l with
  | nil => simp [noDD, noDDb]
  | cons a t ih =>
    cases t with
    | nil => simp [noDD, noDDb]
    | cons b t2 =>
      have ih2 : List.Chain' (fun a b => ¬(a = '.' ∧ b = '.')) (b :: t2) ↔ noDDb (b :: t2) = true := ih
      unfold noDD
      rw [List.chain'_cons]
      show _ ↔ ((!(decide (a = '.') && decide (b = '.'))) && noDDb (b :: t2)) = true
      rw [Bool.and_eq_true, Bool.not_eq_true', Bool.and_eq_false_iff]
      constructor
      · rintro ⟨h1, h2⟩
        refine ⟨?_, ih2.mp h2⟩
        by_cases ha : a = '.'
        · right
          rw [decide_eq_false_iff_not]
          exact fun hb => h1 ⟨ha, hb⟩
        · left
          rw [decide_eq_false_iff_not]
          exact ha
      · rintro ⟨h1, h2⟩
        refine ⟨?_, ih2.mpr h2⟩
        rintro ⟨ha, hb⟩
        rcases h1 with hx | hx
        · rw [decide_eq_false_iff_not] at hx
          exact hx ha
        · rw [decide_eq_false_iff_not] at hx
          exact hx hb

instance (l : List Char) : Decidable (noDD l) :=
  decidable_of_iff (noDDb l = true) (noDD_iff l).symm

instance (l : List Char) : Decidable (dotClean l) :=
  inferInstanceAs (Decidable (l ≠ [] ∧ noDD l ∧ l.head? ≠ some '.' ∧ l.getLast? ≠ some '.'))

instance (l : List Char) : Decidable (tokenOk l) :=
  inferInstanceAs (Decidable (l ≠ [] ∧ ∀ c ∈ l, c ≠ '.'))

instance (l : List Char) : Decidable (tokenOkW l) :=
  inferInstanceAs (Decidable (l ≠ [] ∧ ∀ c ∈ l, c ≠ '.' ∧ isWs c = false))

instance (l : List Char) : Decidable (optTok l) :=
  inferInstanceAs (Decidable (l = [] ∨ tokenOk l))

theorem mem_of_getLast? : ∀ {l : List Char} {a : Char}, l.getLast? = some a → a ∈ l := by
  intro l
  induction l with
  | nil => intro a h; simp at h
  | cons c t ih =>
    intro a h
    cases t with
    | nil =>
      have : c = a := by simpa using h
      exact this ▸ List.mem_cons_self c []
    | cons d t2 =>
      rw [List.getLast?_cons_cons] at h
      exact List.mem_cons_of_mem c (ih h)

theorem noDD_of_no_dots {l : List Char} (h : ∀ c ∈ l, c ≠ '.') : noDD l := by
  induction l with
  | nil => exact List.chain'_nil
  | cons c t ih =>
    refine List.chain'_cons'.mpr ⟨?_, ih (fun a ha => h a (List.mem_cons_of_mem c ha))⟩
    intro y _ hy
    exact h c (List.mem_cons_self c t) hy.1

theorem dotClean_of_tokenOk {l : List Char} (h : tokenOk l) : dotClean l := by
  refine ⟨h.1, noDD_of_no_dots h.2, ?_, ?_⟩
  · intro he
    cases l with
    | nil => simp at he
    | cons c t =>
      exact h.2 c (List.mem_cons_self c t) (by simpa using he)
  · intro he
    exact h.2 '.' (mem_of_getLast? he) rfl

theorem tokenOk_of_tokenOkW {l : List Char} (h : tokenOkW l) : tokenOk l :=
  ⟨h.1, fun c hc => (h.2 c hc).1⟩

theorem tokenOk_toUpperL {l : List Char} (h : tokenOk l) : tokenOk (toUpperL l) := by
  refine ⟨by simpa [toUpperL] using h.1, ?_⟩
  intro c hc
  obtain ⟨d, hd, he⟩ := List.mem_map.mp hc
  intro hdot
  exact h.2 d hd ((toUpper_eq_dot_iff d).mp (he ▸ hdot))

theorem tokenOk_toLowerL {l : List Char} (h : tokenOk l) : tokenOk (toLowerL l) := by
  refine ⟨by simpa [toLowerL] using h.1, ?_⟩
  intro c hc
  obtain ⟨d, hd, he⟩ := List.mem_map.mp hc
  intro hdot
  exact h.2 d hd ((toLower_eq_dot_iff d).mp (he ▸ hdot))

theorem tokenOk_append {l1 l2 : List Char} (h1 : tokenOk l1) (h2 : tokenOk l2) :
    tokenOk (l1 ++ l2) := by
  refine ⟨by simp [h1.1], ?_⟩
  intro c hc
  rcases List.mem_append.mp hc with h | h
  · exact h1.2 c h
  · exact h2.2 c h

theorem joinSep_ne_nil : ∀ ws : List (List Char), ws ≠ [] → (∀ w ∈ ws, w ≠ []) →
    joinSep ['.'] ws ≠ [] := by
  intro ws
  induction ws with
  | nil => intro h _; exact absurd rfl h
  | cons w rest _ =>
    intro _ hall
    cases rest with
    | nil => exact hall w (List.mem_cons_self w [])
    | cons w2 r2 =>
      show w ++ ['.'] ++ joinSep ['.'] (w2 :: r2) ≠ []
      intro he
      have := List.append_eq_nil.mp he
      simp at this

theorem joinSep_clean : ∀ ws : List (List Char), (∀ w ∈ ws, dotClean w) →
    joinSep ['.'] ws = [] ∨ dotClean (joinSep ['.'] ws) := by
  intro ws
  induction ws with
  | nil => intro _; exact Or.inl rfl
  | cons w rest ih =>
    intro hall
    cases rest with
    | nil => exact Or.inr (hall w (List.mem_cons_self w []))
    | cons w2 r2 =>
      right
      have hw : dotClean w := hall w (List.mem_cons_self w _)
      have hrestclean : ∀ v ∈ w2 :: r2, dotClean v :=
        fun v hv => hall v (List.mem_cons_of_mem w hv)
      have hrest : dotClean (joinSep ['.'] (w2 :: r2)) := by
        rcases ih hrestclean with h | h
        · exact absurd h (joinSep_ne_nil _ (by simp) (fun v hv => (hrestclean v hv).1))
        · exact h
      show dotClean (w ++ ['.'] ++ joinSep ['.'] (w2 :: r2))
      rw [List.append_assoc]
      have hjoin : ('.' :: joinSep ['.'] (w2 :: r2)) = ['.'] ++ joinSep ['.'] (w2 :: r2) := rfl
      refine ⟨by simp [hw.1], ?_, ?_, ?_⟩
      · refine List.chain'_append.mpr ⟨hw.2.1, ?_, ?_⟩
        · rw [← hjoin]
          refine List.chain'_cons'.mpr ⟨?_, hrest.2.1⟩
          intro y hy h2
          rw [Option.mem_def] at hy
          exact hrest.2.2.1 (by rw [hy, h2.2])
        · intro x hx y hy h2
          exact hw.2.2.2 (by rw [hx, h2.1])
      · rw [List.head?_append_of_ne_nil w hw.1]
        exact hw.2.2.1
      · intro hcon
        rw [List.getLast?_append, ← hjoin] at hcon
        cases h2 : ('.' :: joinSep ['.'] (w2 :: r2)).getLast? with
        | none =>
          rw [h2] at hcon
          exact hw.2.2.2 (by simpa using hcon)
        | some d =>
          rw [h2] at hcon
          have hd : d = '.' := by simpa using hcon
          subst hd
          cases hJ : joinSep ['.'] (w2 :: r2) with
          | nil => exact (joinSep_ne_nil _ (by simp) (fun v hv => (hrestclean v hv).1)) hJ
          | cons j js =>
            rw [hJ, List.getLast?_cons_cons] at h2
            exact hrest.2.2.2 (by rw [hJ]; exact h2)

/-- No-double-dot in the sense of substring search, derived from the
chain formulation. -/
theorem containsSub_dd_eq_false {l : List Char} (h : noDD l) :
    containsSub l (jsStr "..") = false := by
  induction l with
  | nil => rfl
  | cons c t ih =>
    have hpair := List.chain'_cons'.mp h
    show ((jsStr "..").isPrefixOf (c :: t) || containsSub t (jsStr "..")) = false
    rw [ih hpair.2, Bool.or_false]
    cases t with
    | nil => simp [jsStr, List.isPrefixOf]
    | cons d t2 =>
      show (('.' == c) && (('.' == d) && List.isPrefixOf ([] : List Char) t2)) = false
      by_cases hc : c = '.'
      · by_cases hd : d = '.'
        · exact absurd ⟨hc, hd⟩ (hpair.1 d rfl)
        · refine Bool.and_eq_false_iff.mpr (Or.inr (Bool.and_eq_false_iff.mpr (Or.inl ?_)))
          exact beq_eq_false_iff_ne.mpr (fun h => hd h.symm)
      · refine Bool.and_eq_false_iff.mpr (Or.inl ?_)
        exact beq_eq_false_iff_ne.mpr (fun h => hc h.symm)

/-- Shape of the full composed name: no `..` substring, and neither a
leading nor a trailing dot. -/
def cleanName (n : List Char) : Prop :=
  containsSub n (jsStr "..") = false ∧ n.head? ≠ some '.' ∧ n.getLast? ≠ some '.'

/-- A name assembled as `parts.join('.') ++ "-" ++ team` is clean when
every part is dot-clean and the team token is dot-free. -/
theorem cleanName_assemble (parts : List (List Char)) (team : List Char)
    (hp : ∀ p ∈ parts, dotClean p) (ht : tokenOk team) :
    cleanName (joinSep ['.'] parts ++ '-' :: team) := by
  have hteam : dotClean team := dotClean_of_tokenOk ht
  have hdash : ('-' : Char) ≠ '.' := by decide
  have htail : noDD ('-' :: team) := by
    refine List.chain'_cons'.mpr ⟨?_, hteam.2.1⟩
    intro y _ h2
    exact hdash h2.1
  rcases joinSep_clean parts hp with hbase | hbase
  · rw [hbase]
    refine ⟨containsSub_dd_eq_false htail, by simpa using hdash, ?_⟩
    cases team with
    | nil => exact absurd rfl ht.1
    | cons c t =>
      rw [List.nil_append, List.getLast?_cons_cons]
      exact hteam.2.2.2
  · refine ⟨?_, ?_, ?_⟩
    · refine containsSub_dd_eq_false ?_
      refine List.chain'_append.mpr ⟨hbase.2.1, htail, ?_⟩
      intro x _ y hy h2
      have hy2 : ('-' : Char) = y := by simpa using hy
      exact hdash (by rw [hy2]; exact h2.2)
    · rw [List.head?_append_of_ne_nil _ hbase.1]
      exact hbase.2.2.1
    · intro hcon
      rw [List.getLast?_append] at hcon
      cases h2 : ('-' :: team).getLast? with
      | none =>
        rw [h2] at hcon
        exact hbase.2.2.2 (by simpa using hcon)
      | some d =>
        rw [h2] at hcon
        have hd : d = '.' := by simpa using hcon
        subst hd
        rcases List.mem_cons.mp (mem_of_getLast? h2) with h3 | h3
        · exact hdash h3.symm
        · exact ht.2 '.' h3 rfl

theorem isWs_toUpper_false {c : Char} (h : isWs c = false) : isWs (Char.toUpper c) = false := by
  by_cases hc : c.toNat ≥ 97 ∧ c.toNat ≤ 122
  · have ht := toUpper_toNat_range c hc
    have h1 : (' ' : Char).toNat = 32 := rfl
    have h2 : ('\t' : Char).toNat = 9 := rfl
    have h3 : ('\n' : Char).toNat = 10 := rfl
    have h4 : ('\r' : Char).toNat = 13 := rfl
    have h5 : ('\x0b' : Char).toNat = 11 := rfl
    have h6 : ('\x0c' : Char).toNat = 12 := rfl
    unfold isWs
    refine decide_eq_false ?_
    intro hcon
    rcases hcon with h0 | h0 | h0 | h0 | h0 | h0 <;> (rw [h0] at ht; omega)
  · rw [toUpper_eq_self c hc]
    exact h

theorem tokenOkW_toUpperL {l : List Char} (h : tokenOkW l) : tokenOkW (toUpperL l) := by
  refine ⟨by simpa [toUpperL] using h.1, ?_⟩
  intro c hc
  obtain ⟨d, hd, he⟩ := List.mem_map.mp hc
  subst he
  exact ⟨fun hdot => (h.2 d hd).1 ((toUpper_eq_dot_iff d).mp hdot),
         isWs_toUpper_false (h.2 d hd).2⟩

theorem mem_ite_singleton {x a : List Char} {c : Prop} [Decidable c]
    (h : x ∈ (if c then [a] else [])) : x = a := by
  by_cases hc : c
  · rw [if_pos hc] at h
    simpa using h
  · rw [if_neg hc] at h
    simp at h

theorem dotClean_ite_singleton {p a : List Char} {c : Prop} [Decidable c]
    (hp : p ∈ (if c then [a] else [])) (h : c → dotClean a) : dotClean p := by
  by_cases hc : c
  · rw [if_pos hc] at hp
    rw [List.mem_singleton] at hp
    exact hp ▸ h hc
  · rw [if_neg hc] at hp
    simp at hp

theorem mem_addUniq {l : List (List Char)} {x y : List Char}
    (h : x ∈ addUniq l y) : x ∈ l ∨ x = y := by
  unfold addUniq at h
  by_cases hc : l.contains y
  · rw [if_pos hc] at h
    exact Or.inl h
  · rw [if_neg hc] at h
    rcases List.mem_append.mp h with h | h
    · exact Or.inl h
    · exact Or.inr (by simpa using h)

theorem mem_foldl_addUniq : ∀ (l acc : List (List Char)) (x : List Char),
    x ∈ l.foldl addUniq acc → x ∈ acc ∨ x ∈ l := by
  intro l
  induction l with
  | nil => intro acc x h; exact Or.inl h
  | cons y t ih =>
    intro acc x h
    rw [List.foldl_cons] at h
    rcases ih (addUniq acc y) x h with h | h
    · rcases mem_addUniq h with h | h
      · exact Or.inl h
      · exact Or.inr (List.mem_cons.mpr (Or.inl h))
    · exact Or.inr (List.mem_cons_of_mem y h)

theorem mem_dedupL {l : List (List Char)} {x : List Char} (h : x ∈ dedupL l) : x ∈ l := by
  rcases mem_foldl_addUniq l [] x h with h | h
  · simp at h
  · exact h

theorem foldl_addUniq_ne_nil : ∀ (l acc : List (List Char)), acc ≠ [] →
    l.foldl addUniq acc ≠ [] := by
  intro l
  induction l with
  | nil => intro acc h; exact h
  | cons y t ih =>
    intro acc h
    rw [List.foldl_cons]
    refine ih (addUniq acc y) ?_
    unfold addUniq
    by_cases hc : acc.contains y
    · rw [if_pos hc]; exact h
    · rw [if_neg hc]; simp

theorem dedupL_ne_nil {l : List (List Char)} (h : l ≠ []) : dedupL l ≠ [] := by
  cases l with
  | nil => exact absurd rfl h
  | cons y t =>
    show (y :: t).foldl addUniq [] ≠ []
    rw [List.foldl_cons]
    refine foldl_addUniq_ne_nil t _ ?_
    unfold addUniq
    simp

theorem replaceWsPat_eq_self {l : List Char} (pat : List Char)
    (h : ∀ c ∈ l, isWs c = false) : replaceWsPat l pat = l := by
  induction l with
  | nil => rfl
  | cons c t ih =>
    have hc := h c (List.mem_cons_self c t)
    rw [replaceWsPat]
    rw [if_neg (by simp [hc])]
    rw [ih (fun a ha => h a (List.mem_cons_of_mem c ha))]

theorem replaceSub_ne_nil {l pat rep : List Char} (hl : l ≠ []) (hrep : rep ≠ []) :
    replaceSub l pat rep ≠ [] := by
  cases l with
  | nil => exact absurd rfl hl
  | cons c t =>
    rw [replaceSub]
    split
    · intro hcon
      exact hrep (List.append_eq_nil.mp hcon).1
    · simp

theorem mem_replaceSub : ∀ {l : List Char} (pat rep : List Char) {x : Char},
    x ∈ replaceSub l pat rep → x ∈ l ∨ x ∈ rep := by
  intro l
  induction l with
  | nil =>
    intro pat rep x h
    rw [replaceSub] at h
    simp at h
  | cons c t ih =>
    intro pat rep x h
    rw [replaceSub] at h
    by_cases hp : pat.isPrefixOf (c :: t) = true
    · rw [if_pos hp] at h
      rcases List.mem_append.mp h with h | h
      · exact Or.inr h
      · exact Or.inl (List.drop_subset _ _ h)
    · rw [if_neg hp] at h
      rcases List.mem_cons.mp h with h | h
      · exact Or.inl (List.mem_cons.mpr (Or.inl h))
      · rcases ih pat rep h with h | h
        · exact Or.inl (List.mem_cons_of_mem c h)
        · exact Or.inr h

theorem tokenOk_replaceSub {l pat rep : List Char} (hl : tokenOk l) (hrep : tokenOk rep) :
    tokenOk (replaceSub l pat rep) := by
  refine ⟨replaceSub_ne_nil hl.1 hrep.1, ?_⟩
  intro c hc
  rcases mem_replaceSub pat rep hc with h | h
  · exact hl.2 c h
  · exact hrep.2 c h

theorem joinTokens_clean (ws : List (List Char)) (h : ∀ x ∈ ws, tokenOk x)
    (hne : ws ≠ []) : dotClean (joinSep ['.'] ws) := by
  rcases joinSep_clean ws (fun w hw => dotClean_of_tokenOk (h w hw)) with h0 | h0
  · exact absurd h0 (joinSep_ne_nil ws hne (fun w hw => (h w hw).1))
  · exact h0

theorem tokenOk_normSource {s : List Char} (h : tokenOk s) : tokenOk (normSource s) := by
  unfold normSource
  dsimp only
  by_cases e1 : toLowerL s = jsStr "web-dl" ∨ toLowerL s = jsStr "webdl"
  · rw [if_pos e1]; decide
  · rw [if_neg e1]
    by_cases e2 : toLowerL s = jsStr "webrip"
    · rw [if_pos e2]; decide
    · rw [if_neg e2]
      by_cases e3 : toLowerL s = jsStr "bluray" ∨ toLowerL s = jsStr "blu-ray" ∨
          toLowerL s = jsStr "bdrip" ∨ toLowerL s = jsStr "brrip"
      · rw [if_pos e3]; decide
      · rw [if_neg e3]
        by_cases e4 : toLowerL s = jsStr "remux"
        · rw [if_pos e4]; decide
        · rw [if_neg e4]
          by_cases e5 : toLowerL s = jsStr "hdlight"
          · rw [if_pos e5]; decide
          · rw [if_neg e5]
            by_cases e6 : toLowerL s = jsStr "4klight"
            · rw [if_pos e6]; decide
            · rw [if_neg e6]
              by_cases e7 : toLowerL s = jsStr "dvdrip"
              · rw [if_pos e7]; decide
              · rw [if_neg e7]
                by_cases e8 : toLowerL s = jsStr "hdtv"
                · rw [if_pos e8]; decide
                · rw [if_neg e8]; exact h

theorem tokenOk_movieCodecPart {c : List Char} (h : tokenOk c) :
    tokenOk (movieCodecPart c) := by
  unfold movieCodecPart
  dsimp only
  by_cases e1 : toUpperL c = jsStr "H264" ∨ toUpperL c = jsStr "H.264" ∨ toUpperL c = jsStr "AVC"
  · rw [if_pos e1]; decide
  · rw [if_neg e1]
    by_cases e2 : toUpperL c = jsStr "H265" ∨ toUpperL c = jsStr "H.265" ∨ toUpperL c = jsStr "HEVC"
    · rw [if_pos e2]; decide
    · rw [if_neg e2]; exact tokenOk_toUpperL h

theorem tokenOk_normAudioFallback {a : List Char} (h : tokenOk a) :
    tokenOk (normAudioFallback a) := by
  unfold normAudioFallback
  dsimp only
  by_cases e1 : toUpperL a = jsStr "DDP" ∨ toUpperL a = jsStr "E-AC-3"
  · rw [if_pos e1]; decide
  · rw [if_neg e1]
    by_cases e2 : toUpperL a = jsStr "DD" ∨ toUpperL a = jsStr "AC-3"
    · rw [if_pos e2]; decide
    · rw [if_neg e2]; exact tokenOk_toUpperL h

theorem tokenOk_mapAudioCodec3 {c : List Char} (h : tokenOkW c) :
    tokenOk (mapAudioCodec3 c) := by
  have hup := tokenOkW_toUpperL h
  have hws : ∀ a ∈ toUpperL c, isWs a = false := fun a ha => (hup.2 a ha).2
  unfold mapAudioCodec3
  dsimp only
  by_cases e1 : toUpperL c = jsStr "TRUEHD ATMOS" ∨ containsSub (toUpperL c) (jsStr "TRUEHD")
  · rw [if_pos e1]; decide
  · rw [if_neg e1]
    by_cases e2 : toUpperL c = jsStr "E-AC3 ATMOS" ∨ toUpperL c = jsStr "EAC3 ATMOS" ∨
        containsSub (toUpperL c) (jsStr "E-AC3")
    · rw [if_pos e2]; decide
    · rw [if_neg e2]
      by_cases e3 : toUpperL c = jsStr "DTS:X"
      · rw [if_pos e3]; decide
      · rw [if_neg e3]
        by_cases e4 : containsSub (toUpperL c) (jsStr "DTS")
        · rw [if_pos e4]; decide
        · rw [if_neg e4]
          rw [replaceWsPat_eq_self _ hws, replaceWsPat_eq_self _ hws]
          exact tokenOk_toUpperL (tokenOk_of_tokenOkW h)

theorem tokenOk_mapAudioCodecMedia {c : List Char} (h : tokenOkW c) :
    tokenOk (mapAudioCodecMedia c) := by
  have hup := tokenOkW_toUpperL h
  have hws : ∀ a ∈ toUpperL c, isWs a = false := fun a ha => (hup.2 a ha).2
  unfold mapAudioCodecMedia
  dsimp only
  by_cases e1 : containsSub (toUpperL c) (jsStr "TRUEHD")
  · rw [if_pos e1]; decide
  · rw [if_neg e1]
    by_cases e2 : containsSub (toUpperL c) (jsStr "E-AC3") ∨ containsSub (toUpperL c) (jsStr "EAC3")
    · rw [if_pos e2]; decide
    · rw [if_neg e2]
      by_cases e3 : toUpperL c = jsStr "DTS:X"
      · rw [if_pos e3]; decide
      · rw [if_neg e3]
        by_cases e4 : containsSub (toUpperL c) (jsStr "DTS")
        · rw [if_pos e4]; decide
        · rw [if_neg e4]
          rw [replaceWsPat_eq_self _ hws, replaceWsPat_eq_self _ hws]
          exact tokenOk_toUpperL (tokenOk_of_tokenOkW h)

theorem tokenOk_mapHdr {h : List Char} (hh : tokenOk h) : tokenOk (mapHdr h) :=
  tokenOk_replaceSub (tokenOk_toUpperL hh) (by decide)

theorem tokenOk_resPart {r : List Char} (h : tokenOk r) : tokenOk (resPart r) := by
  unfold resPart
  dsimp only
  split
  · exact tokenOk_toLowerL h
  · exact tokenOk_append (tokenOk_toLowerL h) (by decide)

theorem detectFrenchVariant_cases (g : List Char) (tags : List (List Char)) :
    detectFrenchVariant g tags = jsStr "VFQ" ∨ detectFrenchVariant g tags = jsStr "VFF" := by
  unfold detectFrenchVariant
  dsimp only
  split
  · exact Or.inl rfl
  · split
    · exact Or.inr rfl
    · exact Or.inr rfl

theorem tokenOk_of_mem_matchedSources {t x : List Char} (h : x ∈ matchedSources t) :
    tokenOk x := by
  unfold matchedSources at h
  simp only [List.mem_append] at h
  rcases h with ((((((((h | h) | h) | h) | h) | h) | h) | h) | h) <;> (rw [mem_ite_singleton h]; decide)

theorem mem_audioSpecsOf_aux : ∀ (cs acc : List (List Char)) (x : List Char),
    x ∈ cs.foldl (fun acc c =>
      let lower := toLowerL c
      let acc1 := if containsSub lower (jsStr "atmos") then addUniq acc (jsStr "Atmos") else acc
      if containsSub lower (jsStr "dts:x") ∨ containsSub lower (jsStr "dtsx")
      then addUniq acc1 (jsStr "DTS:X") else acc1) acc →
    x ∈ acc ∨ x = jsStr "Atmos" ∨ x = jsStr "DTS:X" := by
  intro cs
  induction cs with
  | nil => intro acc x h; exact Or.inl h
  | cons c t ih =>
    intro acc x h
    rw [List.foldl_cons] at h
    rcases ih _ x h with h | h
    · dsimp only at h
      by_cases h2 : containsSub (toLowerL c) (jsStr "dts:x") ∨ containsSub (toLowerL c) (jsStr "dtsx")
      · rw [if_pos h2] at h
        rcases mem_addUniq h with h | h
        · by_cases h1 : containsSub (toLowerL c) (jsStr "atmos")
          · rw [if_pos h1] at h
            rcases mem_addUniq h with h | h
            · exact Or.inl h
            · exact Or.inr (Or.inl h)
          · rw [if_neg h1] at h
            exact Or.inl h
        · exact Or.inr (Or.inr h)
      · rw [if_neg h2] at h
        by_cases h1 : containsSub (toLowerL c) (jsStr "atmos")
        · rw [if_pos h1] at h
          rcases mem_addUniq h with h | h
          · exact Or.inl h
          · exact Or.inr (Or.inl h)
        · rw [if_neg h1] at h
          exact Or.inl h
    · exact Or.inr h

theorem mem_audioSpecsOf {cs : List (List Char)} {x : List Char}
    (h : x ∈ audioSpecsOf cs) : x = jsStr "Atmos" ∨ x = jsStr "DTS:X" := by
  rcases mem_audioSpecsOf_aux cs [] x h with h | h
  · simp at h
  · exact h

theorem teamOf_tokenOk (i : Info) (h : i.releaseGroup = [] ∨ tokenOk i.releaseGroup) :
    tokenOk (teamOf i) := by
  unfold teamOf
  split
  · decide
  · rename_i h0
    exact h.resolve_left h0

theorem hdrParts_clean {hdr : List (List Char)} (hh : ∀ x ∈ hdr, tokenOk x) :
    ∀ p ∈ hdrParts hdr, dotClean p := by
  intro p hp
  unfold hdrParts at hp
  have hp2 : p ∈ hdr.map mapHdr := (List.perm_insertionSort hdrLe _).mem_iff.mp hp
  obtain ⟨x, hx, he⟩ := List.mem_map.mp hp2
  subst he
  exact dotClean_of_tokenOk (tokenOk_mapHdr (hh x hx))

set_option maxHeartbeats 2000000 in
theorem generateLanguageParts_clean (i : Info)
    (hal : ∀ l ∈ i.audioLanguages, tokenOk l)
    (hlang : i.language = [] ∨ tokenOk i.language) :
    ∀ p ∈ generateLanguageParts i, dotClean p := by
  intro p hp
  unfold generateLanguageParts at hp
  split at hp
  · rw [List.mem_singleton] at hp; subst hp
    exact dotClean_of_tokenOk (by decide)
  · split at hp
    · dsimp only at hp
      split at hp
      · rw [List.mem_singleton] at hp; subst hp
        exact dotClean_of_tokenOk (by decide)
      · split at hp
        · rw [List.mem_singleton] at hp; subst hp
          exact dotClean_of_tokenOk (by decide)
        · split at hp
          · rw [List.mem_singleton] at hp; subst hp
            exact dotClean_of_tokenOk (by decide)
          · split at hp
            · rw [List.mem_singleton] at hp; subst hp
              exact dotClean_of_tokenOk (by decide)
            · split at hp
              · rw [List.mem_singleton] at hp; subst hp
                exact dotClean_of_tokenOk (by decide)
              · split at hp
                · rw [List.mem_singleton] at hp; subst hp
                  exact dotClean_of_tokenOk (by decide)
                · split at hp
                  · rw [List.mem_singleton] at hp; subst hp
                    rcases detectFrenchVariant_cases i.releaseGroup i.tags with h | h <;>
                      (rw [h]; exact dotClean_of_tokenOk (by decide))
                  · split at hp
                    · rw [List.mem_singleton] at hp; subst hp
                      exact dotClean_of_tokenOk (by decide)
                    · split at hp
                      · rename_i hlen
                        rw [List.mem_singleton] at hp; subst hp
                        obtain ⟨a, ha⟩ := List.length_eq_one.mp hlen
                        have hmem : a ∈ otherLangs i.audioLanguages := by
                          rw [ha]; exact List.mem_singleton.mpr rfl
                        have hmem2 : a ∈ i.audioLanguages := (List.mem_filter.mp hmem).1
                        rw [ha]
                        exact dotClean_of_tokenOk (tokenOk_toUpperL (hal a hmem2))
                      · simp at hp
    · split at hp
      · rename_i hl
        dsimp only at hp
        rw [List.mem_singleton] at hp; subst hp
        split
        · exact dotClean_of_tokenOk (by decide)
        · rcases hlang with h | h
          · exact absurd h hl
          · exact dotClean_of_tokenOk (tokenOk_toUpperL h)
      · simp at hp

set_option maxHeartbeats 2000000 in
theorem mediaGetLanguageParts_clean (i : Info)
    (hal : ∀ l ∈ i.audioLanguages, tokenOk l)
    (hlang : i.language = [] ∨ tokenOk i.language) :
    ∀ p ∈ mediaGetLanguageParts i, dotClean p := by
  intro p hp
  unfold mediaGetLanguageParts at hp
  split at hp
  · rw [List.mem_singleton] at hp; subst hp
    exact dotClean_of_tokenOk (by decide)
  · split at hp
    · dsimp only at hp
      split at hp
      · rw [List.mem_singleton] at hp; subst hp
        exact dotClean_of_tokenOk (by decide)
      · split at hp
        · rw [List.mem_singleton] at hp; subst hp
          exact dotClean_of_tokenOk (by decide)
        · split at hp
          · rw [List.mem_singleton] at hp; subst hp
            exact dotClean_of_tokenOk (by decide)
          · split at hp
            · rw [List.mem_singleton] at hp; subst hp
              exact dotClean_of_tokenOk (by decide)
            · split at hp
              · rw [List.mem_singleton] at hp; subst hp
                exact dotClean_of_tokenOk (by decide)
              · split at hp
                · rw [List.mem_singleton] at hp; subst hp
                  exact dotClean_of_tokenOk (by decide)
                · split at hp
                  · rw [List.mem_singleton] at hp; subst hp
                    exact dotClean_of_tokenOk (by decide)
                  · split at hp
                    · rw [List.mem_singleton] at hp; subst hp
                      exact dotClean_of_tokenOk (by decide)
                    · split at hp
                      · rename_i hlen
                        rw [List.mem_singleton] at hp; subst hp
                        obtain ⟨a, ha⟩ := List.length_eq_one.mp hlen
                        have hmem : a ∈ otherLangs i.audioLanguages := by
                          rw [ha]; exact List.mem_singleton.mpr rfl
                        have hmem2 : a ∈ i.audioLanguages := (List.mem_filter.mp hmem).1
                        rw [ha]
                        exact dotClean_of_tokenOk (tokenOk_toUpperL (hal a hmem2))
                      · simp at hp
    · split at hp
      · rename_i hl
        rw [List.mem_singleton] at hp; subst hp
        split
        · exact dotClean_of_tokenOk (by decide)
        · rcases hlang with h | h
          · exact absurd h hl
          · exact dotClean_of_tokenOk (tokenOk_toUpperL h)
      · simp at hp

theorem generateLanguageInfoParts_clean (i : Info)
    (hli : i.languageInfo = [] ∨ tokenOk i.languageInfo) :
    ∀ p ∈ generateLanguageInfoParts i, dotClean p := by
  intro p hp
  unfold generateLanguageInfoParts at hp
  rcases List.mem_append.mp hp with h | h
  · split at h
    · dsimp only at h
      split at h
      · rw [List.mem_singleton] at h; subst h
        split
        · exact dotClean_of_tokenOk (by decide)
        · exact dotClean_of_tokenOk (by decide)
      · simp at h
    · simp at h
  · refine dotClean_ite_singleton h (fun hc => ?_)
    rcases hli with h1 | h1
    · exact absurd h1 hc
    · exact dotClean_of_tokenOk (tokenOk_toUpperL h1)

theorem generateSourcePart_clean (i : Info) (hs : i.source = [] ∨ tokenOk i.source) :
    generateSourcePart i = [] ∨ dotClean (generateSourcePart i) := by
  have he : generateSourcePart i = joinSep ['.']
      (if i.source ≠ [] then
        addUniq (matchedSources (toUpperL (i.source ++ jsStr " " ++ i.releaseGroup ++ jsStr " " ++ joinSep (jsStr " ") i.tags))) (normSource i.source)
       else matchedSources (toUpperL (i.source ++ jsStr " " ++ i.releaseGroup ++ jsStr " " ++ joinSep (jsStr " ") i.tags))) := rfl
  rw [he]
  refine joinSep_clean _ ?_
  intro w hw
  refine dotClean_of_tokenOk ?_
  by_cases h0 : i.source ≠ []
  · rw [if_pos h0] at hw
    rcases mem_addUniq hw with h | h
    · exact tokenOk_of_mem_matchedSources h
    · rw [h]
      exact tokenOk_normSource (hs.resolve_left h0)
  · rw [if_neg h0] at hw
    exact tokenOk_of_mem_matchedSources hw

theorem mediaGetSourcePart_clean (i : Info) (hs : i.source = [] ∨ tokenOk i.source) :
    mediaGetSourcePart i = [] ∨ dotClean (mediaGetSourcePart i) := by
  unfold mediaGetSourcePart
  split
  · exact Or.inl rfl
  · rename_i h0
    exact Or.inr (dotClean_of_tokenOk (tokenOk_normSource (hs.resolve_left h0)))

theorem generateAudioParts_clean (i : Info)
    (hcod : ∀ c ∈ i.audioCodecs, tokenOkW c)
    (hch : i.audioChannels = [] ∨ dotClean i.audioChannels)
    (ha : i.audio = [] ∨ tokenOk i.audio)
    (hsp : i.audioSpec = [] ∨ dotClean i.audioSpec) :
    ∀ p ∈ generateAudioParts i, dotClean p := by
  intro p hp
  unfold generateAudioParts at hp
  simp only [List.mem_append] at hp
  rcases hp with ((hp | hp) | hp) | hp
  · split at hp
    · rename_i h0
      rw [List.mem_singleton] at hp; subst hp
      refine joinTokens_clean _ ?_ ?_
      · intro x hx
        obtain ⟨c, hc1, hc2⟩ := List.mem_map.mp (mem_dedupL hx)
        rw [← hc2]
        exact tokenOk_mapAudioCodec3 (hcod c hc1)
      · refine dedupL_ne_nil ?_
        cases hl : i.audioCodecs with
        | nil => exact absurd hl h0
        | cons a t => simp
    · split at hp
      · rename_i h1
        rw [List.mem_singleton] at hp; subst hp
        exact dotClean_of_tokenOk (tokenOk_normAudioFallback (ha.resolve_left h1))
      · simp at hp
  · refine dotClean_ite_singleton hp (fun hc => ?_)
    exact hch.resolve_left hc
  · split at hp
    · split at hp
      · rename_i hne
        rw [List.mem_singleton] at hp; subst hp
        refine joinTokens_clean _ ?_ hne
        intro x hx
        rcases mem_audioSpecsOf hx with h | h <;> (rw [h]; decide)
      · simp at hp
    · simp at hp
  · refine dotClean_ite_singleton hp (fun hc => ?_)
    exact hsp.resolve_left hc

theorem mediaGetAudioParts_clean (i : Info)
    (hcod : ∀ c ∈ i.audioCodecs, tokenOkW c)
    (hch : i.audioChannels = [] ∨ dotClean i.audioChannels) :
    ∀ p ∈ mediaGetAudioParts i, dotClean p := by
  intro p hp
  unfold mediaGetAudioParts at hp
  simp only [List.mem_append] at hp
  rcases hp with (hp | hp) | hp
  · split at hp
    · rename_i h0
      rw [List.mem_singleton] at hp; subst hp
      refine joinTokens_clean _ ?_ ?_
      · intro x hx
        obtain ⟨c, hc1, hc2⟩ := List.mem_map.mp (mem_dedupL hx)
        rw [← hc2]
        exact tokenOk_mapAudioCodecMedia (hcod c hc1)
      · refine dedupL_ne_nil ?_
        cases hl : i.audioCodecs with
        | nil => exact absurd hl h0
        | cons a t => simp
    · simp at hp
  · refine dotClean_ite_singleton hp (fun hc => ?_)
    exact hch.resolve_left hc
  · split at hp
    · split at hp
      · rename_i hne
        rw [List.mem_singleton] at hp; subst hp
        refine joinTokens_clean _ ?_ hne
        intro x hx
        rcases mem_audioSpecsOf hx with h | h <;> (rw [h]; decide)
      · simp at hp
    · simp at hp

theorem seriesSeasonEpisodePart_clean (i : Info) (isSeason : Bool)
    (hs : i.season = [] ∨ tokenOk i.season) (he : i.episode = [] ∨ tokenOk i.episode) :
    ∀ p ∈ seriesSeasonEpisodePart i isSeason, dotClean p := by
  intro p hp
  unfold seriesSeasonEpisodePart at hp
  split at hp
  · split at hp
    · rename_i hcond
      split at hp
      · rw [List.mem_singleton] at hp; subst hp
        exact dotClean_of_tokenOk (by decide)
      · rw [List.mem_singleton] at hp; subst hp
        exact dotClean_of_tokenOk (tokenOk_toUpperL (hs.resolve_left hcond))
    · simp at hp
  · split at hp
    · rename_i hcond
      rw [List.mem_singleton] at hp; subst hp
      exact dotClean_of_tokenOk (tokenOk_append (tokenOk_toUpperL (hs.resolve_left hcond.1))
        (tokenOk_toUpperL (he.resolve_left hcond.2)))
    · split at hp
      · rename_i hcond
        rw [List.mem_singleton] at hp; subst hp
        exact dotClean_of_tokenOk (tokenOk_toUpperL (he.resolve_left hcond))
      · split at hp
        · rename_i hcond
          rw [List.mem_singleton] at hp; subst hp
          exact dotClean_of_tokenOk (tokenOk_toUpperL (hs.resolve_left hcond))
        · simp at hp

/-- Field-shape hypotheses under which the composed names are dot-clean:
every present string field is free of dots (audio channels may carry
internal dots such as `5.1` but must be dot-clean; audio codecs must
also be whitespace-free because their mapping strips
whitespace-prefixed suffixes), and a present title must not normalize
to the empty string. -/
structure CleanInfo (i : Info) : Prop where
  title_ok : i.title = [] ∨ normalizeTitle i.title ≠ []
  threeDType_ok : i.threeDType = [] ∨ tokenOk i.threeDType
  year_ok : i.year = [] ∨ tokenOk i.year
  infoFlag_ok : i.infoFlag = [] ∨ tokenOk i.infoFlag
  edition_ok : i.edition = [] ∨ tokenOk i.edition
  audioLanguages_ok : ∀ l ∈ i.audioLanguages, tokenOk l
  language_ok : i.language = [] ∨ tokenOk i.language
  languageInfo_ok : i.languageInfo = [] ∨ tokenOk i.languageInfo
  hdr_ok : ∀ x ∈ i.hdr, tokenOk x
  resolution_ok : i.resolution = [] ∨ tokenOk i.resolution
  platform_ok : i.platform = [] ∨ tokenOk i.platform
  source_ok : i.source = [] ∨ tokenOk i.source
  audioCodecs_ok : ∀ c ∈ i.audioCodecs, tokenOkW c
  audio_ok : i.audio = [] ∨ tokenOk i.audio
  audioChannels_ok : i.audioChannels = [] ∨ dotClean i.audioChannels
  audioSpec_ok : i.audioSpec = [] ∨ dotClean i.audioSpec
  codec_ok : i.codec = [] ∨ tokenOk i.codec
  season_ok : i.season = [] ∨ tokenOk i.season
  episode_ok : i.episode = [] ∨ tokenOk i.episode
  releaseGroup_ok : i.releaseGroup = [] ∨ tokenOk i.releaseGroup

theorem movieParts_clean (i : Info) (h : CleanInfo i) : ∀ p ∈ movieParts i, dotClean p := by
  intro p hp
  unfold movieParts at hp
  dsimp only at hp
  simp only [List.mem_append] at hp
  rcases hp with (((((((((((((hp | hp) | hp) | hp) | hp) | hp) | hp) | hp) | hp) | hp) | hp) | hp) | hp) | hp) | hp
  · refine dotClean_ite_singleton hp (fun hc => ?_)
    exact ⟨h.title_ok.resolve_left hc, dotNorm_normalizeTitle i.title⟩
  · exact dotClean_ite_singleton hp (fun _ => dotClean_of_tokenOk (by decide))
  · exact dotClean_ite_singleton hp (fun hc => dotClean_of_tokenOk (h.threeDType_ok.resolve_left hc))
  · exact dotClean_ite_singleton hp (fun hc => dotClean_of_tokenOk (h.year_ok.resolve_left hc))
  · exact dotClean_ite_singleton hp
      (fun hc => dotClean_of_tokenOk (tokenOk_toUpperL (h.infoFlag_ok.resolve_left hc)))
  · exact dotClean_ite_singleton hp (fun hc => dotClean_of_tokenOk (h.edition_ok.resolve_left hc))
  · exact dotClean_ite_singleton hp (fun _ => dotClean_of_tokenOk (by decide))
  · exact generateLanguageParts_clean i h.audioLanguages_ok h.language_ok p hp
  · exact generateLanguageInfoParts_clean i h.languageInfo_ok p hp
  · by_cases h0 : i.hdr ≠ []
    · rw [if_pos h0] at hp
      exact hdrParts_clean h.hdr_ok p hp
    · rw [if_neg h0] at hp
      simp at hp
  · exact dotClean_ite_singleton hp
      (fun hc => dotClean_of_tokenOk (tokenOk_resPart (h.resolution_ok.resolve_left hc)))
  · exact dotClean_ite_singleton hp
      (fun hc => dotClean_of_tokenOk (tokenOk_toUpperL (h.platform_ok.resolve_left hc)))
  · exact dotClean_ite_singleton hp
      (fun hc => (generateSourcePart_clean i h.source_ok).resolve_left hc)
  · exact generateAudioParts_clean i h.audioCodecs_ok h.audioChannels_ok h.audio_ok h.audioSpec_ok p hp
  · exact dotClean_ite_singleton hp
      (fun hc => dotClean_of_tokenOk (tokenOk_movieCodecPart (h.codec_ok.resolve_left hc)))

theorem seriesParts_clean (i : Info) (isSeason : Bool) (h : CleanInfo i) :
    ∀ p ∈ seriesParts i isSeason, dotClean p := by
  intro p hp
  unfold seriesParts at hp
  dsimp only at hp
  simp only [List.mem_append] at hp
  rcases hp with ((((((((((((((hp | hp) | hp) | hp) | hp) | hp) | hp) | hp) | hp) | hp) | hp) | hp) | hp) | hp) | hp) | hp
  · refine dotClean_ite_singleton hp (fun hc => ?_)
    exact ⟨h.title_ok.resolve_left hc, dotNorm_normalizeTitle i.title⟩
  · exact dotClean_ite_singleton hp (fun _ => dotClean_of_tokenOk (by decide))
  · exact dotClean_ite_singleton hp (fun hc => dotClean_of_tokenOk (h.threeDType_ok.resolve_left hc))
  · exact dotClean_ite_singleton hp (fun hc => dotClean_of_tokenOk (h.year_ok.resolve_left hc))
  · exact seriesSeasonEpisodePart_clean i isSeason h.season_ok h.episode_ok p hp
  · exact dotClean_ite_singleton hp
      (fun hc => dotClean_of_tokenOk (tokenOk_toUpperL (h.infoFlag_ok.resolve_left hc)))
  · exact dotClean_ite_singleton hp (fun hc => dotClean_of_tokenOk (h.edition_ok.resolve_left hc))
  · exact dotClean_ite_singleton hp (fun _ => dotClean_of_tokenOk (by decide))
  · exact generateLanguageParts_clean i h.audioLanguages_ok h.language_ok p hp
  · exact generateLanguageInfoParts_clean i h.languageInfo_ok p hp
  · by_cases h0 : i.hdr ≠ []
    · rw [if_pos h0] at hp
      exact hdrParts_clean h.hdr_ok p hp
    · rw [if_neg h0] at hp
      simp at hp
  · exact dotClean_ite_singleton hp
      (fun hc => dotClean_of_tokenOk (tokenOk_resPart (h.resolution_ok.resolve_left hc)))
  · exact dotClean_ite_singleton hp
      (fun hc => dotClean_of_tokenOk (tokenOk_toUpperL (h.platform_ok.resolve_left hc)))
  · exact dotClean_ite_singleton hp
      (fun hc => (generateSourcePart_clean i h.source_ok).resolve_left hc)
  · exact generateAudioParts_clean i h.audioCodecs_ok h.audioChannels_ok h.audio_ok h.audioSpec_ok p hp
  · exact dotClean_ite_singleton hp
      (fun hc => dotClean_of_tokenOk (tokenOk_movieCodecPart (h.codec_ok.resolve_left hc)))

theorem filmParts_clean (i : Info) (h : CleanInfo i) : ∀ p ∈ filmParts i, dotClean p := by
  intro p hp
  unfold filmParts at hp
  dsimp only at hp
  simp only [List.mem_append] at hp
  rcases hp with ((((((((((((hp | hp) | hp) | hp) | hp) | hp) | hp) | hp) | hp) | hp) | hp) | hp) | hp) | hp
  · refine dotClean_ite_singleton hp (fun hc => ?_)
    exact ⟨h.title_ok.resolve_left hc, dotNorm_normalizeTitle i.title⟩
  · exact dotClean_ite_singleton hp (fun _ => dotClean_of_tokenOk (by decide))
  · exact dotClean_ite_singleton hp (fun hc => dotClean_of_tokenOk (h.threeDType_ok.resolve_left hc))
  · exact dotClean_ite_singleton hp (fun hc => dotClean_of_tokenOk (h.year_ok.resolve_left hc))
  · exact dotClean_ite_singleton hp
      (fun hc => dotClean_of_tokenOk (tokenOk_toUpperL (h.infoFlag_ok.resolve_left hc)))
  · exact dotClean_ite_singleton hp (fun hc => dotClean_of_tokenOk (h.edition_ok.resolve_left hc))
  · exact dotClean_ite_singleton hp (fun _ => dotClean_of_tokenOk (by decide))
  · exact mediaGetLanguageParts_clean i h.audioLanguages_ok h.language_ok p hp
  · exact hdrParts_clean h.hdr_ok p hp
  · exact dotClean_ite_singleton hp
      (fun hc => dotClean_of_tokenOk (tokenOk_resPart (h.resolution_ok.resolve_left hc)))
  · exact dotClean_ite_singleton hp
      (fun hc => dotClean_of_tokenOk (tokenOk_toUpperL (h.platform_ok.resolve_left hc)))
  · exact dotClean_ite_singleton hp
      (fun hc => (mediaGetSourcePart_clean i h.source_ok).resolve_left hc)
  · exact mediaGetAudioParts_clean i h.audioCodecs_ok h.audioChannels_ok p hp
  · refine dotClean_ite_singleton hp (fun hc => ?_)
    by_cases h0 : i.codec = []
    · rw [if_pos h0] at hc
      exact absurd rfl hc
    · rw [if_neg h0] at hc ⊢
      exact dotClean_of_tokenOk (tokenOk_movieCodecPart (h.codec_ok.resolve_left h0))

/-- C9: for attribute bags whose present fields are dot-free tokens (audio
channels and the audio-spec field merely dot-clean, audio codecs also
whitespace-free, and a present title not normalizing to the empty string),
every composed release name — movie, series (both season and episode
modes) and film — contains no two consecutive `.` separators and neither
starts nor ends with `.`, apart from the mandatory `-<group>` suffix.
Without these field hypotheses the property fails, see the
counterexample. -/
theorem C9_composed_name_dot_clean (i : Info) (isSeason : Bool) (h : CleanInfo i) :
    cleanName (generateMovieReleaseName i) ∧
    cleanName (generateSeriesReleaseName i isSeason) ∧
    cleanName (filmGenerateName i) :=
  ⟨cleanName_assemble _ _ (movieParts_clean i h) (teamOf_tokenOk i h.releaseGroup_ok),
   cleanName_assemble _ _ (seriesParts_clean i isSeason h) (teamOf_tokenOk i h.releaseGroup_ok),
   cleanName_assemble _ _ (filmParts_clean i h) (teamOf_tokenOk i h.releaseGroup_ok)⟩

/-- Attribute bag used to instantiate the C9 theorem at a concrete input. -/
def infoW : Info :=
  { title := jsStr "Example Movie", year := jsStr "2019", source := jsStr "BluRay",
    releaseGroup := jsStr "GROUP", resolution := jsStr "1080p", codec := jsStr "x264",
    hdr := [jsStr "DV"], audioCodecs := [jsStr "EAC3"], audioChannels := jsStr "5.1",
    audioLanguages := [jsStr "VFF"], season := jsStr "S01", episode := jsStr "E02" }

theorem C9_composed_name_dot_clean_witness :
    cleanName (generateMovieReleaseName infoW) ∧
    cleanName (generateSeriesReleaseName infoW false) ∧
    cleanName (filmGenerateName infoW) :=
  C9_composed_name_dot_clean infoW false (by constructor <;> decide)

/-- C9 counterexample: on an unrestricted attribute bag the property of
the spec sentence fails — a non-empty title consisting of a single comma
normalizes to the empty string, which is still joined as a slot, so the
composed movie name starts with a `.` separator. -/
theorem C9_counterexample :
    generateMovieReleaseName { title := jsStr ",", year := jsStr "2019" } = jsStr ".2019-NoTag" ∧
    (generateMovieReleaseName { title := jsStr ",", year := jsStr "2019" }).head? = some '.' := by
  decide

end AATM
